import Mathlib

/- Verification of the FormalFinance core (models / engine / rules /
   certificate / proof subsystems), shallowly embedded from the Python
   source.  Machine reals are modelled as dyadic rationals with IEEE-754
   binary64 rounding, Python `Decimal` as sign/coefficient/exponent triples
   with the default context (28 significant digits, round-half-even), and
   JSON payloads as a small value type with the `sort_keys` compact
   serialization used for hashing.  SHA-256 and HMAC are implemented
   concretely over byte lists so that every digest in the development is a
   real digest. -/

set_option maxRecDepth 1000000

namespace FF

/-! ### Small numeric helpers (all structurally recursive, kernel-evaluable) -/

/-- Number of base-10 digits, with explicit fuel. -/
def numDigitsAux : Nat → Nat → Nat
  | 0, _ => 1
  | fuel + 1, n => if n < 10 then 1 else numDigitsAux fuel (n / 10) + 1

/-- Number of base-10 digits of `n`; `numDigits10 0 = 1`. -/
def numDigits10 (n : Nat) : Nat := numDigitsAux n n

/-- Base-10 digits of `n`, most significant first, with explicit fuel. -/
def digitsAux : Nat → Nat → List Nat
  | 0, _ => []
  | fuel + 1, n => if n < 10 then [n] else digitsAux fuel (n / 10) ++ [n % 10]

/-- Base-10 digits, most significant first; `toDigits10 0 = [0]`. -/
def toDigits10 (n : Nat) : List Nat := digitsAux (n + 1) n

/-- Rebuild a number from base-10 digits (most significant first). -/
def ofDigits10 (ds : List Nat) : Nat := ds.foldl (fun acc d => acc * 10 + d) 0

/-- Binary length of `n` (`bitLen 0 = 0`), with explicit fuel. -/
def bitLenAux : Nat → Nat → Nat
  | 0, _ => 0
  | fuel + 1, n => if n = 0 then 0 else bitLenAux fuel (n / 2) + 1

def bitLen (n : Nat) : Nat := bitLenAux n n

/-! ### UTF-8 and hex -/

/-- UTF-8 encoding of one Unicode code point. -/
def utf8Char (c : Nat) : List Nat :=
  if c < 0x80 then [c]
  else if c < 0x800 then [0xc0 + c / 0x40, 0x80 + c % 0x40]
  else if c < 0x10000 then
    [0xe0 + c / 0x1000, 0x80 + c / 0x40 % 0x40, 0x80 + c % 0x40]
  else
    [0xf0 + c / 0x40000, 0x80 + c / 0x1000 % 0x40, 0x80 + c / 0x40 % 0x40,
      0x80 + c % 0x40]

/-- UTF-8 bytes of a string (Python `str.encode("utf-8")`). -/
def utf8 (s : String) : List Nat := (s.data.map (fun c => utf8Char c.toNat)).flatten

def hexDigitChar (n : Nat) : Char :=
  if n < 10 then Char.ofNat (48 + n) else Char.ofNat (87 + n)

/-- Two lowercase hex characters for one byte. -/
def byteHex (b : Nat) : List Char := [hexDigitChar (b / 16 % 16), hexDigitChar (b % 16)]

/-- Lowercase hex string of a byte list (Python `hexdigest`). -/
def hexOfBytes (bs : List Nat) : String := ⟨(bs.map byteHex).flatten⟩

/-! ### SHA-256 over byte lists -/

def M32 : Nat := 4294967296

def rotr32 (x n : Nat) : Nat := (x >>> n + x <<< (32 - n)) % M32

def shaCh (x y z : Nat) : Nat := (x &&& y) ^^^ ((x ^^^ (M32 - 1)) &&& z)

def shaMaj (x y z : Nat) : Nat := (x &&& y) ^^^ (x &&& z) ^^^ (y &&& z)

def bigSigma0 (x : Nat) : Nat := rotr32 x 2 ^^^ rotr32 x 13 ^^^ rotr32 x 22

def bigSigma1 (x : Nat) : Nat := rotr32 x 6 ^^^ rotr32 x 11 ^^^ rotr32 x 25

def smallSigma0 (x : Nat) : Nat := rotr32 x 7 ^^^ rotr32 x 18 ^^^ (x >>> 3)

def smallSigma1 (x : Nat) : Nat := rotr32 x 17 ^^^ rotr32 x 19 ^^^ (x >>> 10)

def shaK : List Nat :=
  [1116352408, 1899447441, 3049323471, 3921009573, 961987163, 1508970993,
   2453635748, 2870763221, 3624381080, 310598401, 607225278, 1426881987,
   1925078388, 2162078206, 2614888103, 3248222580, 3835390401, 4022224774,
   264347078, 604807628, 770255983, 1249150122, 1555081692, 1996064986,
   2554220882, 2821834349, 2952996808, 3210313671, 3336571891, 3584528711,
   113926993, 338241895, 666307205, 773529912, 1294757372, 1396182291,
   1695183700, 1986661051, 2177026350, 2456956037, 2730485921, 2820302411,
   3259730800, 3345764771, 3516065817, 3600352804, 4094571909, 275423344,
   430227734, 506948616, 659060556, 883997877, 958139571, 1322822218,
   1537002063, 1747873779, 1955562222, 2024104815, 2227730452, 2361852424,
   2428436474, 2756734187, 3204031479, 3329325298]

/-- Big-endian 8-byte encoding. -/
def be8 (n : Nat) : List Nat :=
  [n >>> 56 % 256, n >>> 48 % 256, n >>> 40 % 256, n >>> 32 % 256,
   n >>> 24 % 256, n >>> 16 % 256, n >>> 8 % 256, n % 256]

/-- Big-endian 4-byte encoding of a 32-bit word. -/
def be4 (n : Nat) : List Nat := [n >>> 24 % 256, n >>> 16 % 256, n >>> 8 % 256, n % 256]

/-- SHA-256 padding: `0x80`, zeros, then the 64-bit bit length. -/
def shaPad (msg : List Nat) : List Nat :=
  msg ++ 0x80 :: List.replicate ((64 - (msg.length + 9) % 64) % 64) 0 ++
    be8 (8 * msg.length)

/-- Split a list into chunks of `k` elements (fuel-driven). -/
def chunksAux (k : Nat) : Nat → List Nat → List (List Nat)
  | 0, _ => []
  | fuel + 1, l => if l.isEmpty then [] else l.take k :: chunksAux k fuel (l.drop k)

def chunks (k : Nat) (l : List Nat) : List (List Nat) := chunksAux k l.length l

/-- One big-endian 32-bit word from (up to) four bytes. -/
def wordOf (bs : List Nat) : Nat := bs.foldl (fun acc b => acc * 256 + b) 0

structure Sha8 where
  a : Nat
  b : Nat
  c : Nat
  d : Nat
  e : Nat
  f : Nat
  g : Nat
  h : Nat

def shaH0 : Sha8 :=
  ⟨1779033703, 3144134277, 1013904242, 2773480762, 1359893119, 2600822924,
   528734635, 1541459225⟩

/-- Extend the 16 block words to the 64-word message schedule. -/
def shaSchedule (ws : List Nat) : List Nat :=
  (List.range 48).foldl
    (fun w _ =>
      let n := w.length
      w ++ [(smallSigma1 (w.getD (n - 2) 0) + w.getD (n - 7) 0 +
             smallSigma0 (w.getD (n - 15) 0) + w.getD (n - 16) 0) % M32])
    ws

def shaRound (st : Sha8) (kw : Nat × Nat) : Sha8 :=
  let t1 := (st.h + bigSigma1 st.e + shaCh st.e st.f st.g + kw.1 + kw.2) % M32
  let t2 := (bigSigma0 st.a + shaMaj st.a st.b st.c) % M32
  ⟨(t1 + t2) % M32, st.a, st.b, st.c, (st.d + t1) % M32, st.e, st.f, st.g⟩

def shaBlock (st : Sha8) (block : List Nat) : Sha8 :=
  let ws := shaSchedule ((chunks 4 block).map wordOf)
  let r := (shaK.zip ws).foldl shaRound st
  ⟨(st.a + r.a) % M32, (st.b + r.b) % M32, (st.c + r.c) % M32, (st.d + r.d) % M32,
   (st.e + r.e) % M32, (st.f + r.f) % M32, (st.g + r.g) % M32, (st.h + r.h) % M32⟩

/-- SHA-256 digest of a byte list, as 32 bytes. -/
def sha256 (msg : List Nat) : List Nat :=
  let st := (chunks 64 (shaPad msg)).foldl shaBlock shaH0
  be4 st.a ++ be4 st.b ++ be4 st.c ++ be4 st.d ++ be4 st.e ++ be4 st.f ++
    be4 st.g ++ be4 st.h

/-- `hashlib.sha256(bytes).hexdigest()`. -/
def sha256Hex (msg : List Nat) : String := hexOfBytes (sha256 msg)

theorem sha256_length (msg : List Nat) : (sha256 msg).length = 32 := by
  simp [sha256, be4]

theorem sha256Hex_length (msg : List Nat) : (sha256Hex msg).length = 64 := by
  simp [sha256Hex, hexOfBytes, String.length, sha256, be4, byteHex]

theorem sha256Hex_ne_empty (msg : List Nat) : sha256Hex msg ≠ "" := by
  intro h
  have := congrArg String.length h
  rw [sha256Hex_length] at this
  simp [String.length] at this

/-! ### base64url (no padding) and HMAC-SHA256 -/

def b64Alphabet : List Char :=
  "ABCDEFGHIJKLMNOPQRSTUVWXYZabcdefghijklmnopqrstuvwxyz0123456789-_".data

def b64Char (n : Nat) : Char := b64Alphabet.getD n 'A'

/-- One group of up to three bytes to base64url characters (unpadded, as
after `rstrip("=")`). -/
def b64Group (g : List Nat) : List Char :=
  match g with
  | [a] => [b64Char (a / 4), b64Char (a % 4 * 16)]
  | [a, b] => [b64Char (a / 4), b64Char (a % 4 * 16 + b / 16), b64Char (b % 16 * 4)]
  | [a, b, c] =>
    [b64Char (a / 4), b64Char (a % 4 * 16 + b / 16), b64Char (b % 16 * 4 + c / 64),
     b64Char (c % 64)]
  | _ => []

/-- `base64.urlsafe_b64encode(bytes).decode("ascii").rstrip("=")`. -/
def b64urlNoPad (bs : List Nat) : String := ⟨((chunks 3 bs).map b64Group).flatten⟩

/-- HMAC-SHA256 (`hmac.new(key, msg, sha256).digest()`). -/
def hmacSha256 (key msg : List Nat) : List Nat :=
  let k0 := if key.length > 64 then sha256 key else key
  let k := k0 ++ List.replicate (64 - k0.length) 0
  let ipad := k.map (fun b => b ^^^ 0x36)
  let opad := k.map (fun b => b ^^^ 0x5c)
  sha256 (opad ++ sha256 (ipad ++ msg))

/-! ### IEEE-754 binary64 model (Python `float`)

A finite double is a dyadic rational `m * 2^e` stored with odd (or zero)
mantissa so the representation is canonical and structural equality is value
equality.  `roundRat` is correct round-to-nearest-even of a rational,
including subnormals and overflow to infinity.  The negative-zero sign bit is
not tracked (it is indistinguishable in the arithmetic used by the rules). -/

inductive Fp where
  | finite (m : Int) (e : Int)
  | inf
  | neginf
  | nan
deriving DecidableEq, Repr

/-- `2^k` as an integer, computed through kernel-accelerated `Nat.pow`. -/
def i2pow (k : Nat) : Int := ((2 ^ k : Nat) : Int)

/-- `10^k` as an integer, computed through kernel-accelerated `Nat.pow`. -/
def i10pow (k : Nat) : Int := ((10 ^ k : Nat) : Int)

/-- Canonical finite double: strip factors of two into the exponent. -/
def fpMkAux : Nat → Int → Int → Fp
  | 0, m, e => .finite m e
  | fuel + 1, m, e => if m % 2 = 0 ∧ m ≠ 0 then fpMkAux fuel (m / 2) (e + 1) else .finite m e

def fpMk (m : Int) (e : Int) : Fp :=
  if m = 0 then .finite 0 0 else fpMkAux m.natAbs m e

/-- Round-to-nearest-even of `a / b` as an integer (`b > 0`). -/
def rdivNE (a b : Nat) : Nat :=
  let q := a / b
  let r := a % b
  if 2 * r > b then q + 1
  else if 2 * r < b then q
  else if q % 2 = 1 then q + 1 else q

/-- Correctly rounded binary64 value of the rational `num / den` (`den > 0`):
round-to-nearest-even at 53 significant bits, with gradual underflow below
`2^-1022` and overflow to infinity at `2^1024`. -/
def roundRat (num : Int) (den : Nat) : Fp :=
  if num = 0 then .finite 0 0 else
  let p := num.natAbs
  -- floor of log2 (p / den): the bit-length estimate, corrected once
  let e0 : Int := (bitLen p : Int) - (bitLen den : Int)
  let ge : Int → Bool := fun k =>
    if k ≥ 0 then p ≥ den * 2 ^ k.toNat else p * 2 ^ (-k).toNat ≥ den
  let elog : Int := if ge e0 then e0 else e0 - 1
  -- exponent of one unit in the last place
  let u : Int := max (elog - 52) (-1074)
  -- mantissa = round-to-nearest-even of (p / den) / 2^u
  let m : Nat :=
    if u ≥ 0 then rdivNE p (den * 2 ^ u.toNat) else rdivNE (p * 2 ^ (-u).toNat) den
  if m = 0 then .finite 0 0
  else if (bitLen m : Int) + u ≥ 1025 then (if num < 0 then .neginf else .inf)
  else fpMk (if num < 0 then -(m : Int) else (m : Int)) u

/-- Rounded binary64 value of the dyadic `m * 2^e`. -/
def roundDyadic (m : Int) (e : Int) : Fp :=
  if e ≥ 0 then roundRat (m * i2pow e.toNat) 1 else roundRat m (2 ^ (-e).toNat)

/-- Python `float(int)`: raises `OverflowError` when the integer exceeds the
binary64 range, otherwise converts with rounding. -/
def floatOfInt (n : Int) : Except String Fp :=
  match roundRat n 1 with
  | .inf => .error "OverflowError"
  | .neginf => .error "OverflowError"
  | v => .ok v

def Fp.neg : Fp → Fp
  | .finite m e => .finite (-m) e
  | .inf => .neginf
  | .neginf => .inf
  | .nan => .nan

def Fp.abs : Fp → Fp
  | .finite m e => .finite m.natAbs e
  | .inf => .inf
  | .neginf => .inf
  | .nan => .nan

def Fp.add : Fp → Fp → Fp
  | .nan, _ => .nan
  | _, .nan => .nan
  | .inf, .neginf => .nan
  | .neginf, .inf => .nan
  | .inf, _ => .inf
  | _, .inf => .inf
  | .neginf, _ => .neginf
  | _, .neginf => .neginf
  | .finite m1 e1, .finite m2 e2 =>
    let emin := min e1 e2
    roundDyadic (m1 * i2pow (e1 - emin).toNat + m2 * i2pow (e2 - emin).toNat) emin

def Fp.sub (a b : Fp) : Fp := a.add b.neg

def Fp.mul : Fp → Fp → Fp
  | .nan, _ => .nan
  | _, .nan => .nan
  | .inf, .finite m _ => if m = 0 then .nan else if m < 0 then .neginf else .inf
  | .finite m _, .inf => if m = 0 then .nan else if m < 0 then .neginf else .inf
  | .neginf, .finite m _ => if m = 0 then .nan else if m < 0 then .inf else .neginf
  | .finite m _, .neginf => if m = 0 then .nan else if m < 0 then .inf else .neginf
  | .inf, .inf => .inf
  | .inf, .neginf => .neginf
  | .neginf, .inf => .neginf
  | .neginf, .neginf => .inf
  | .finite m1 e1, .finite m2 e2 => roundDyadic (m1 * m2) (e1 + e2)

/-- Compare two finite dyadics by value. -/
def dyadicLt (m1 e1 m2 e2 : Int) : Bool :=
  let emin := min e1 e2
  m1 * i2pow (e1 - emin).toNat < m2 * i2pow (e2 - emin).toNat

/-- Python `<` on floats (`nan` compares false). -/
def Fp.lt : Fp → Fp → Bool
  | .nan, _ => false
  | _, .nan => false
  | .finite m1 e1, .finite m2 e2 => dyadicLt m1 e1 m2 e2
  | .inf, .inf => false
  | .neginf, .neginf => false
  | _, .inf => true
  | .neginf, _ => true
  | .inf, _ => false
  | _, .neginf => false

/-- Python `<=` on floats (`nan` compares false). -/
def Fp.le (a b : Fp) : Bool :=
  match a, b with
  | .nan, _ => false
  | _, .nan => false
  | _, _ => a.lt b || a == b

def Fp.isnan : Fp → Bool
  | .nan => true
  | _ => false

def Fp.isinf : Fp → Bool
  | .inf => true
  | .neginf => true
  | _ => false

/-- Rational value of a finite double (for specification only). -/
def Fp.val : Fp → ℚ
  | .finite m e => (m : ℚ) * 2 ^ (e : ℤ)
  | _ => 0

/-- Rounded binary64 value of `m * 10^x` (decimal-literal conversion). -/
def roundDec10 (m : Int) (x : Int) : Fp :=
  if x ≥ 0 then roundRat (m * i10pow x.toNat) 1 else roundRat m (10 ^ (-x).toNat)

def isDigitChar (c : Char) : Bool := 48 ≤ c.toNat && c.toNat ≤ 57

def digitsOfChars (cs : List Char) : List Nat := cs.map (fun c => c.toNat - 48)

def isSpaceChar (c : Char) : Bool :=
  c = ' ' || c = '\t' || c = '\n' || c = '\x0b' || c = '\x0c' || c = '\r'

def stripChars (cs : List Char) : List Char :=
  ((cs.dropWhile isSpaceChar).reverse.dropWhile isSpaceChar).reverse

def lowerChars (cs : List Char) : List Char :=
  cs.map (fun c => if 65 ≤ c.toNat && c.toNat ≤ 90 then Char.ofNat (c.toNat + 32) else c)

/-- Split an optional leading sign from a character list; `true` = negative. -/
def splitSign : List Char → Bool × List Char
  | '-' :: rest => (true, rest)
  | '+' :: rest => (false, rest)
  | cs => (false, cs)

/-- Parse the `digits [. digits] [e|E [sign] digits]` body of a decimal
literal into (coefficient, decimal exponent).  Underscored literals (PEP 515)
are not modelled. -/
def parseDecBody (cs : List Char) : Option (Nat × Int) :=
  let intPart := cs.takeWhile isDigitChar
  let rest1 := cs.dropWhile isDigitChar
  let fracPart :=
    match rest1 with
    | '.' :: r => some (r.takeWhile isDigitChar)
    | _ => none
  let rest2 :=
    match rest1 with
    | '.' :: r => r.dropWhile isDigitChar
    | _ => rest1
  let frac := fracPart.getD []
  if intPart.isEmpty ∧ frac.isEmpty then none
  else
    let coeff := ofDigits10 (digitsOfChars (intPart ++ frac))
    let e10 : Int := -(frac.length : Int)
    match rest2 with
    | [] => some (coeff, e10)
    | 'e' :: r =>
      let (negE, r') := splitSign r
      let eds := r'.takeWhile isDigitChar
      if eds.isEmpty ∨ ¬(r'.dropWhile isDigitChar).isEmpty then none
      else
        let ev : Int := ofDigits10 (digitsOfChars eds)
        some (coeff, e10 + (if negE then -ev else ev))
    | _ => none

/-- Python `float(txt)`: strip, optional sign, `inf`/`infinity`/`nan`, or a
decimal literal, correctly rounded to binary64. -/
def pyParseFloat (s : String) : Option Fp :=
  let cs := lowerChars (stripChars s.data)
  let (neg, body) := splitSign cs
  if body = "inf".data ∨ body = "infinity".data then
    some (if neg then .neginf else .inf)
  else if body = "nan".data then some .nan
  else
    match parseDecBody body with
    | none => none
    | some (coeff, e10) => some (roundDec10 (if neg then -(coeff : Int) else coeff) e10)

/-- Floor of log10 of the positive rational `num / den`. -/
def floorLog10 (num den : Nat) : Int :=
  let g : Int := (numDigits10 num : Int) - (numDigits10 den : Int)
  let geTen : Int → Bool := fun k =>
    if k ≥ 0 then num ≥ den * 10 ^ k.toNat else num * 10 ^ (-k).toNat ≥ den
  if geTen g then g else g - 1

/-- Round the positive rational `num / den` to `k` significant decimal digits:
returns the digit block `n` (with `10^(k-1) ≤ n < 10^k`) and the decimal
exponent of its leading digit. -/
def sigRound (num den : Nat) (k : Nat) : Nat × Int :=
  let e := floorLog10 num den
  let j : Int := (k : Int) - 1 - e
  let n0 := if j ≥ 0 then rdivNE (num * 10 ^ j.toNat) den else rdivNE num (den * 10 ^ (-j).toNat)
  if n0 = 10 ^ k then (10 ^ (k - 1), e + 1) else (n0, e)

/-- The binary64 value denoted by the decimal `n * 10^(e-k+1)` where `n` has
`k` digits and leading decimal exponent `e`. -/
def sigValue (n : Nat) (e : Int) (k : Nat) : Fp :=
  roundDec10 n (e - (k : Int) + 1)

/-- Render `k` significant digits with leading exponent `e` the way
`float.__repr__` does (fixed point for `-4 ≤ e < 16`, else scientific with a
two-digit-minimum exponent). -/
def reprDigits (ds : List Nat) (e : Int) : String :=
  let chars := ds.map (fun d => Char.ofNat (48 + d))
  if -4 ≤ e ∧ e < 16 then
    if e ≥ 0 then
      let ip := chars ++ List.replicate (e.toNat + 1 - chars.length) '0'
      let intPart := ip.take (e.toNat + 1)
      let frac := chars.drop (e.toNat + 1)
      ⟨intPart⟩ ++ "." ++ (if frac.isEmpty then "0" else ⟨frac⟩)
    else
      "0." ++ ⟨List.replicate (-e - 1).toNat '0'⟩ ++ ⟨chars⟩
  else
    let mant :=
      match chars with
      | [] => "0"
      | d :: rest => if rest.isEmpty then ⟨[d]⟩ else ⟨[d]⟩ ++ "." ++ ⟨rest⟩
    let eAbs := toDigits10 e.natAbs
    let ePad := if eAbs.length < 2 then List.replicate (2 - eAbs.length) 0 ++ eAbs else eAbs
    mant ++ "e" ++ (if e < 0 then "-" else "+") ++ ⟨ePad.map (fun d => Char.ofNat (48 + d))⟩

/-- Worker for `shortestDigits`: try `17 - fuel` significant digits upward. -/
def shortestDigitsGo (num den : Nat) (target : Fp) : Nat → Nat × Int
  | 0 => sigRound num den 17
  | fuel + 1 =>
    let k := 16 - fuel
    let (n, e) := sigRound num den k
    if sigValue n e k = target then (n, e) else shortestDigitsGo num den target fuel

/-- Shortest-round-trip decimal digits for the positive dyadic `num / den`:
try 1 to 16 significant digits and keep the first whose nearest decimal reads
back exactly; fall back to 17 digits (always exact for binary64). -/
def shortestDigits (num den : Nat) (target : Fp) : Nat × Int :=
  shortestDigitsGo num den target 16

/-- Python `repr(float)` (= `str(float)`): shortest decimal that reads back
to the same double. -/
def pyFloatRepr : Fp → String
  | .nan => "nan"
  | .inf => "inf"
  | .neginf => "-inf"
  | .finite m e =>
    if m = 0 then "0.0"
    else
      let sign := if m < 0 then "-" else ""
      let num := m.natAbs * 2 ^ (max e 0).toNat
      let den := 2 ^ (max (-e) 0).toNat
      let (n, e10) := shortestDigits num den (.finite m.natAbs e)
      sign ++ reprDigits (toDigits10 n) e10

/-! ### Python exceptions -/

inductive PyErr where
  | attributeError (name : String)
  | valueError (msg : String)
  | invalidOperation
  | typeError (msg : String)
  | overflowError
deriving DecidableEq, Repr

/-! ### Python `Decimal` under the default context

`decimal.getcontext()` defaults: 28 significant digits, `ROUND_HALF_EVEN`,
traps on `InvalidOperation`.  A finite value is `(-1)^sign * coeff * 10^exp`;
the sign of `NaN` and the `Emin`/`Emax` exponent clamp of the default context
(±999999, unreachable for the values this code base handles) are not
modelled. -/

inductive Dec where
  | fin (neg : Bool) (coeff : Nat) (exp : Int)
  | inf (neg : Bool)
  | nan
deriving DecidableEq, Repr

def DECPREC : Nat := 28

/-- Round a coefficient to the context precision (28 significant digits,
half-even), adjusting the exponent. -/
def roundCoeff (c : Nat) (e : Int) : Nat × Int :=
  let d := numDigits10 c
  if d ≤ DECPREC then (c, e)
  else
    let k := d - DECPREC
    let p10 := 10 ^ k
    let q := c / p10
    let r := c % p10
    let inc := if 2 * r > p10 then 1 else if 2 * r < p10 then 0 else q % 2
    let q' := q + inc
    if numDigits10 q' > DECPREC then (q' / 10, e + k + 1) else (q', e + k)

/-- A finite result, rounded to the context precision. -/
def mkFin (neg : Bool) (c : Nat) (e : Int) : Dec :=
  let (c', e') := roundCoeff c e
  .fin neg c' e'

def decOfInt (n : Int) : Dec := .fin (n < 0) n.natAbs 0

def Dec.negate : Dec → Dec
  | .fin s c e => .fin (!s) c e
  | .inf s => .inf (!s)
  | .nan => .nan

/-- Signed integer view of a finite decimal scaled to exponent `emin`. -/
def decScaled (s : Bool) (c : Nat) (e emin : Int) : Int :=
  (if s then -(c : Int) else (c : Int)) * i10pow (e - emin).toNat

/-- Decimal addition (exact sum at the smaller exponent, then context
rounding; `inf + -inf` signals `InvalidOperation`). -/
def decAdd : Dec → Dec → Except PyErr Dec
  | .nan, _ => .ok .nan
  | _, .nan => .ok .nan
  | .inf s1, .inf s2 => if s1 = s2 then .ok (.inf s1) else .error .invalidOperation
  | .inf s, .fin _ _ _ => .ok (.inf s)
  | .fin _ _ _, .inf s => .ok (.inf s)
  | .fin s1 c1 e1, .fin s2 c2 e2 =>
    let emin := min e1 e2
    let sum := decScaled s1 c1 e1 emin + decScaled s2 c2 e2 emin
    if sum = 0 then .ok (mkFin (s1 && s2) 0 emin)
    else .ok (mkFin (sum < 0) sum.natAbs emin)

def decSub (a b : Dec) : Except PyErr Dec := decAdd a b.negate

/-- Decimal multiplication (`inf * 0` signals `InvalidOperation`). -/
def decMul : Dec → Dec → Except PyErr Dec
  | .nan, _ => .ok .nan
  | _, .nan => .ok .nan
  | .inf s1, .inf s2 => .ok (.inf (s1 != s2))
  | .inf s1, .fin s2 c _ =>
    if c = 0 then .error .invalidOperation else .ok (.inf (s1 != s2))
  | .fin s2 c _, .inf s1 =>
    if c = 0 then .error .invalidOperation else .ok (.inf (s1 != s2))
  | .fin s1 c1 e1, .fin s2 c2 e2 => .ok (mkFin (s1 != s2) (c1 * c2) (e1 + e2))

/-- Python `abs(Decimal)`: clear the sign, context-rounded. -/
def decAbs : Dec → Dec
  | .fin _ c e => mkFin false c e
  | .inf _ => .inf false
  | .nan => .nan

/-- Exact value comparison of two finite decimals (`a < b`). -/
def decFinLt (s1 : Bool) (c1 : Nat) (e1 : Int) (s2 : Bool) (c2 : Nat) (e2 : Int) : Bool :=
  let emin := min e1 e2
  decScaled s1 c1 e1 emin < decScaled s2 c2 e2 emin

/-- Python `<=` on decimals; ordering a quiet `NaN` signals
`InvalidOperation` under the default context. -/
def decLe : Dec → Dec → Except PyErr Bool
  | .nan, _ => .error .invalidOperation
  | _, .nan => .error .invalidOperation
  | .inf s1, .inf s2 => .ok (s1 ≥ s2)
  | .inf s, .fin _ _ _ => .ok s
  | .fin _ _ _, .inf s => .ok (!s)
  | .fin s1 c1 e1, .fin s2 c2 e2 =>
    .ok (!(decFinLt s2 c2 e2 s1 c1 e1))

/-- Python `!=` on decimals (`NaN` is unequal to everything, no signal). -/
def decNe : Dec → Dec → Bool
  | .nan, _ => true
  | _, .nan => true
  | .inf s1, .inf s2 => s1 ≠ s2
  | .inf _, .fin _ _ _ => true
  | .fin _ _ _, .inf _ => true
  | .fin s1 c1 e1, .fin s2 c2 e2 =>
    decFinLt s1 c1 e1 s2 c2 e2 || decFinLt s2 c2 e2 s1 c1 e1

/-- `Decimal.to_integral_value()`: round to exponent 0 (half-even), no
precision limit, specials pass through. -/
def decToIntegral : Dec → Dec
  | .fin s c e =>
    if e ≥ 0 then .fin s c e
    else
      let p10 := 10 ^ (-e).toNat
      let q := c / p10
      let r := c % p10
      let inc := if 2 * r > p10 then 1 else if 2 * r < p10 then 0 else q % 2
      .fin s (q + inc) 0
  | .inf s => .inf s
  | .nan => .nan

/-- Python `int(Decimal)`: truncate toward zero; specials fail. -/
def decToInt : Dec → Except PyErr Int
  | .fin s c e =>
    let mag : Nat := if e ≥ 0 then c * 10 ^ e.toNat else c / 10 ^ (-e).toNat
    .ok (if s then -(mag : Int) else mag)
  | .inf _ => .error (.overflowError)
  | .nan => .error (.valueError "cannot convert NaN to integer")

/-- Strip trailing zero digits into the exponent. -/
def stripZerosAux : Nat → Nat → Int → Nat × Int
  | 0, c, e => (c, e)
  | fuel + 1, c, e => if c % 10 = 0 ∧ c ≠ 0 then stripZerosAux fuel (c / 10) (e + 1) else (c, e)

/-- `Decimal.normalize()`: context rounding, then remove trailing zeros;
a zero becomes `0E+0`. -/
def decNormalize : Dec → Dec
  | .fin s c e =>
    let (c', e') := roundCoeff c e
    if c' = 0 then .fin s 0 0
    else
      let (c'', e'') := stripZerosAux c' c' e'
      .fin s c'' e''
  | .inf s => .inf s
  | .nan => .nan

/-- Digit characters of a coefficient. -/
def coeffChars (c : Nat) : List Char := (toDigits10 c).map (fun d => Char.ofNat (48 + d))

/-- `Decimal.__str__` (the to-scientific-string algorithm). -/
def decStr : Dec → String
  | .nan => "NaN"
  | .inf s => if s then "-Infinity" else "Infinity"
  | .fin s c e =>
    let ds := coeffChars c
    let leftdigits : Int := e + ds.length
    let dotplace : Int := if e ≤ 0 ∧ leftdigits > -6 then leftdigits else 1
    let intpart : List Char :=
      if dotplace ≤ 0 then ['0']
      else if dotplace ≥ ds.length then ds ++ List.replicate (dotplace.toNat - ds.length) '0'
      else ds.take dotplace.toNat
    let fracpart : List Char :=
      if dotplace ≤ 0 then '.' :: List.replicate (-dotplace).toNat '0' ++ ds
      else if dotplace ≥ ds.length then []
      else '.' :: ds.drop dotplace.toNat
    let expval : Int := leftdigits - dotplace
    let exppart : List Char :=
      if expval = 0 then []
      else
        'E' :: (if expval < 0 then '-' else '+') ::
          coeffChars expval.natAbs
    (if s then "-" else "") ++ ⟨intpart⟩ ++ ⟨fracpart⟩ ++ ⟨exppart⟩

/-- `Decimal(str)`: sign, `inf`/`nan` forms, or a decimal literal; invalid
strings signal `InvalidOperation` (the constructor does not round).
Underscores are removed up front as CPython does. -/
def decParse (s : String) : Except PyErr Dec :=
  let cs := lowerChars (stripChars (s.data.filter (fun c => c ≠ '_')))
  let (neg, body) := splitSign cs
  if body = "inf".data ∨ body = "infinity".data then .ok (.inf neg)
  else if body = "nan".data ∨ body = "snan".data then .ok .nan
  else
    match parseDecBody body with
    | none => .error .invalidOperation
    | some (coeff, e10) => .ok (.fin neg coeff e10)

/-! ### JSON / Python values

`J` models the JSON-serializable Python values the system passes around
(`None`, `bool`, `int`, `float`, `str`, `list`, `dict`).  Dict fields are
kept in insertion order with unique keys, as CPython dicts are. -/

inductive J where
  | null
  | b (v : Bool)
  | i (v : Int)
  | f (v : Fp)
  | s (v : String)
  | arr (items : List J)
  | obj (fields : List (String × J))

/- Structure depth, the fuel for value-level equality. -/
mutual

def jDepth : J → Nat
  | .arr l => jDepthList l + 1
  | .obj l => jDepthObj l + 1
  | _ => 1

def jDepthList : List J → Nat
  | [] => 0
  | x :: xs => max (jDepth x) (jDepthList xs)

def jDepthObj : List (String × J) → Nat
  | [] => 0
  | (_, v) :: xs => max (jDepth v) (jDepthObj xs)

end

/-- Strict lexicographic order on character lists by code point (Python
`str.__lt__`). -/
def strLtChars : List Char → List Char → Bool
  | [], [] => false
  | [], _ :: _ => true
  | _ :: _, [] => false
  | c1 :: t1, c2 :: t2 =>
    if c1.toNat < c2.toNat then true
    else if c2.toNat < c1.toNat then false
    else strLtChars t1 t2

def pyStrLt (a b : String) : Bool := strLtChars a.data b.data

def pyStrLe (a b : String) : Bool := !(strLtChars b.data a.data)

/-- Sort dict fields by key (CPython `sorted`, a stable sort; keys are
unique, so any stable sort by `≤` agrees with it). -/
def sortPairs (l : List (String × J)) : List (String × J) :=
  l.insertionSort (fun a b => pyStrLe a.1 b.1 = true)

def listEqWith (f : J → J → Bool) : List J → List J → Bool
  | [], [] => true
  | x :: xs, y :: ys => f x y && listEqWith f xs ys
  | _, _ => false

def fieldsEqWith (f : J → J → Bool) : List (String × J) → List (String × J) → Bool
  | [], [] => true
  | (k1, v1) :: xs, (k2, v2) :: ys => k1 == k2 && f v1 v2 && fieldsEqWith f xs ys
  | _, _ => false

/-- Python `==` on values, with fuel bounding the depth: numeric types
compare by value across `bool`/`int`/`float` (`nan` unequal to itself),
lists elementwise, dicts by sorted key/value pairs. -/
def pyEqFuel : Nat → J → J → Bool
  | 0, _, _ => false
  | fuel + 1, a, b =>
    match a, b with
    | .null, .null => true
    | .b x, .b y => x == y
    | .b x, .i y => (if x then 1 else 0 : Int) == y
    | .i x, .b y => x == (if y then 1 else 0 : Int)
    | .i x, .i y => x == y
    | .b x, .f y => y == roundRat (if x then 1 else 0) 1
    | .f y, .b x => y == roundRat (if x then 1 else 0) 1
    | .i x, .f y => !y.isnan && y == roundRat x 1 && roundRat x 1 == .finite x 0
    | .f y, .i x => !y.isnan && y == roundRat x 1 && roundRat x 1 == .finite x 0
    | .f x, .f y => !x.isnan && !y.isnan && x == y
    | .s x, .s y => x == y
    | .arr x, .arr y => listEqWith (pyEqFuel fuel) x y
    | .obj x, .obj y => fieldsEqWith (pyEqFuel fuel) (sortPairs x) (sortPairs y)
    | _, _ => false

def pyEq (a b : J) : Bool := pyEqFuel (max (jDepth a) (jDepth b)) a b

/-- Python truthiness. -/
def pyTruthy : J → Bool
  | .null => false
  | .b v => v
  | .i v => v != 0
  | .f v => v != .finite 0 0
  | .s v => v ≠ ""
  | .arr l => !l.isEmpty
  | .obj l => !l.isEmpty

/-- `a or b` (Python): `a` when truthy, else `b`. -/
def pyOr (a b : J) : J := if pyTruthy a then a else b

def sq : Char := Char.ofNat 39

/- Python `repr` of a value (containers as `str` renders them).  String
escaping inside containers is simplified to backslash-escaping of the quote
and backslash, which is exact for the strings this code base produces. -/
mutual

def pyRepr : J → String
  | .null => "None"
  | .b v => if v then "True" else "False"
  | .i v => toString v
  | .f v => pyFloatRepr v
  | .s v =>
    ⟨sq :: (v.data.map (fun c => if c = sq ∨ c = '\\' then ['\\', c] else [c])).flatten ++ [sq]⟩
  | .arr l => "[" ++ pyReprList l ++ "]"
  | .obj l => "\x7b" ++ pyReprObj l ++ "\x7d"

def pyReprList : List J → String
  | [] => ""
  | [x] => pyRepr x
  | x :: xs => pyRepr x ++ ", " ++ pyReprList xs

def pyReprObj : List (String × J) → String
  | [] => ""
  | [(k, v)] => pyRepr (.s k) ++ ": " ++ pyRepr v
  | (k, v) :: xs => pyRepr (.s k) ++ ": " ++ pyRepr v ++ ", " ++ pyReprObj xs

end

/-- Python `str()` of a value. -/
def pyStr : J → String
  | .s v => v
  | .null => "None"
  | .b v => if v then "True" else "False"
  | .i v => toString v
  | .f v => pyFloatRepr v
  | .arr l => pyRepr (.arr l)
  | .obj l => pyRepr (.obj l)

/-- `str(x or "")`, the idiom the verifiers use to read string fields. -/
def pyStrOr (x : J) : String := if pyTruthy x then pyStr x else ""

/-- `dict.get(key)`: first binding or `None`. -/
def jGet (x : J) (key : String) : J :=
  match x with
  | .obj fields => (fields.lookup key).getD .null
  | _ => .null

/-- `key in dict`. -/
def jHasKey (x : J) (key : String) : Bool :=
  match x with
  | .obj fields => fields.any (fun kv => kv.1 == key)
  | _ => false

/-- One JSON-escaped character (`json.dumps` with `ensure_ascii=True`). -/
def jsonEscapeChar (c : Char) : List Char :=
  if c = '"' then ['\\', '"']
  else if c = '\\' then ['\\', '\\']
  else if c = '\n' then ['\\', 'n']
  else if c = '\t' then ['\\', 't']
  else if c = '\r' then ['\\', 'r']
  else if c = '\x08' then ['\\', 'b']
  else if c = '\x0c' then ['\\', 'f']
  else if c.toNat < 0x20 then
    '\\' :: 'u' :: (toDigits10 0).map (fun _ => '0') ++
      [hexDigitChar (c.toNat / 4096 % 16), hexDigitChar (c.toNat / 256 % 16),
       hexDigitChar (c.toNat / 16 % 16), hexDigitChar (c.toNat % 16)]
  else if c.toNat < 0x7f then [c]
  else if c.toNat < 0x10000 then
    ['\\', 'u', hexDigitChar (c.toNat / 4096 % 16), hexDigitChar (c.toNat / 256 % 16),
     hexDigitChar (c.toNat / 16 % 16), hexDigitChar (c.toNat % 16)]
  else
    let v := c.toNat - 0x10000
    let hi := 0xd800 + v / 0x400
    let lo := 0xdc00 + v % 0x400
    ['\\', 'u', hexDigitChar (hi / 4096 % 16), hexDigitChar (hi / 256 % 16),
     hexDigitChar (hi / 16 % 16), hexDigitChar (hi % 16),
     '\\', 'u', hexDigitChar (lo / 4096 % 16), hexDigitChar (lo / 256 % 16),
     hexDigitChar (lo / 16 % 16), hexDigitChar (lo % 16)]

def jsonQuote (v : String) : String :=
  "\"" ++ ⟨(v.data.map jsonEscapeChar).flatten⟩ ++ "\""

/-- JSON float rendering (`json.dumps` uses `float.__repr__`, with
`Infinity`/`-Infinity`/`NaN` for the specials). -/
def jsonFloat : Fp → String
  | .inf => "Infinity"
  | .neginf => "-Infinity"
  | .nan => "NaN"
  | v => pyFloatRepr v

def joinWith (sep : String) : List String → String
  | [] => ""
  | [x] => x
  | x :: xs => x ++ sep ++ joinWith sep xs

/-- `json.dumps(x, sort_keys=True, separators=(",", ":"), ensure_ascii=True)`,
with fuel bounding the nesting depth. -/
def dumpsFuel : Nat → J → String
  | 0, _ => ""
  | fuel + 1, j =>
    match j with
    | .null => "null"
    | .b v => if v then "true" else "false"
    | .i v => toString v
    | .f v => jsonFloat v
    | .s v => jsonQuote v
    | .arr l => "[" ++ joinWith "," (l.map (dumpsFuel fuel)) ++ "]"
    | .obj l =>
      "\x7b" ++
        joinWith ","
          ((sortPairs l).map (fun kv => jsonQuote kv.1 ++ ":" ++ dumpsFuel fuel kv.2)) ++
        "\x7d"

def dumps (j : J) : String := dumpsFuel (jDepth j) j

/-- `_stable_json_bytes` (proof.py / certificate.py): the canonical
hashing serialization. -/
def stable_json_bytes (payload : J) : List Nat := utf8 (dumps payload)

/-! ### Data model (models.py)

`Filing` carries exactly the fields of the `models.py` dataclass:
`accession`, `cik`, `entity`, `period_end`, `taxonomy`, `contexts`, `facts`.
The `ixbrl` / `taxonomy_package` components that `rules_ixbrl.py`,
`rules_taxonomy.py` and `sec_accession_ingest.py` use are *not* fields of the
dataclass; attribute access to them is embedded as an `AttributeError`.
String-annotated metadata fields are modelled as `Option String` (the
annotations of the dataclass); dimension maps as ordered string pairs. -/

/-- Stable sort by a string key (CPython `sorted(key=...)`). -/
def sortByKey {α : Type} (key : α → String) (l : List α) : List α :=
  l.insertionSort (fun a b => pyStrLe (key a) (key b) = true)

/-- `dict(sorted(d.items()))` for a string-to-string map. -/
def sortStrPairs (l : List (String × String)) : List (String × String) :=
  l.insertionSort (fun a b => pyStrLe a.1 b.1 = true)

structure Context where
  id : String
  period_type : String
  instant : Option String := none
  start_date : Option String := none
  end_date : Option String := none
  dimensions : List (String × String) := []

structure Fact where
  id : String
  concept : String
  context_id : String
  value : J
  unit : Option String := none
  decimals : J := .null
  dimensions : List (String × String) := []
  source : List (String × J) := []

structure Filing where
  accession : Option String := none
  cik : Option String := none
  entity : Option String := none
  period_end : Option String := none
  taxonomy : Option String := none
  contexts : List (String × Context) := []
  facts : List Fact := []

def optStrJ : Option String → J
  | none => .null
  | some s => .s s

def jOptStr : J → Option String
  | .s v => some v
  | _ => none

/-- String-valued entries of a JSON object (`dict[str, str]` annotation). -/
def jStrPairs (x : J) : List (String × String) :=
  match x with
  | .obj fields => fields.filterMap (fun kv => (jOptStr kv.2).map (fun v => (kv.1, v)))
  | _ => []

def jPairs (x : J) : List (String × J) :=
  match x with
  | .obj fields => fields
  | _ => []

/-- Zero-padded six digits (`f"{index:06d}"`). -/
def pad6 (n : Nat) : String :=
  let ds := toDigits10 n
  ⟨(List.replicate (6 - ds.length) 0 ++ ds).map (fun d => Char.ofNat (48 + d))⟩

/-- `_fact_id`: the raw id when truthy, else `fact-{index:06d}`. -/
def fact_id_of (raw_id : Option String) (index : Nat) : String :=
  match raw_id with
  | some s => if s ≠ "" then s else "fact-" ++ pad6 index
  | none => "fact-" ++ pad6 index

/-- `Context.from_dict`. -/
def Context.from_dict (ctx_id : String) (obj : J) : Context :=
  let raw_pt := ⟨lowerChars (pyStr (jGet obj "period_type")).data⟩
  let period_type :=
    if raw_pt = "instant" ∨ raw_pt = "duration" then raw_pt
    else if pyTruthy (jGet obj "instant") then "instant" else "duration"
  { id := ctx_id
    period_type := period_type
    instant := jOptStr (jGet obj "instant")
    start_date := jOptStr (jGet obj "start_date")
    end_date := jOptStr (jGet obj "end_date")
    dimensions := jStrPairs (pyOr (jGet obj "dimensions") (.obj [])) }

/-- `Fact.from_dict` (missing `concept`/`context_id` keys raise `KeyError`,
modelled as `none`). -/
def Fact.from_dict (obj : J) (index : Nat) : Option Fact :=
  if jHasKey obj "concept" ∧ jHasKey obj "context_id" then
    some
      { id := fact_id_of (jOptStr (jGet obj "id")) index
        concept := pyStr (jGet obj "concept")
        context_id := pyStr (jGet obj "context_id")
        value := jGet obj "value"
        unit := jOptStr (jGet obj "unit")
        decimals := jGet obj "decimals"
        dimensions := jStrPairs (pyOr (jGet obj "dimensions") (.obj []))
        source := jPairs (pyOr (jGet obj "source") (.obj [])) }
  else none

/-- `Filing.from_dict`. -/
def Filing.from_dict (obj : J) : Option Filing :=
  let contexts_raw := jPairs (pyOr (jGet obj "contexts") (.obj []))
  let contexts := contexts_raw.map (fun kv => (kv.1, Context.from_dict kv.1 kv.2))
  let facts_raw : List J :=
    match pyOr (jGet obj "facts") (.arr []) with
    | .arr items => items
    | _ => []
  let facts? := facts_raw.enum.mapM (fun iv => Fact.from_dict iv.2 (iv.1 + 1))
  facts?.map (fun facts =>
    { accession := jOptStr (jGet obj "accession")
      cik := jOptStr (jGet obj "cik")
      entity := jOptStr (jGet obj "entity")
      period_end := jOptStr (jGet obj "period_end")
      taxonomy := jOptStr (jGet obj "taxonomy")
      contexts := contexts
      facts := facts })

def strPairsJ (l : List (String × String)) : J :=
  .obj (l.map (fun kv => (kv.1, .s kv.2)))

/-- `Filing.canonical_object`: contexts sorted by id with key-sorted
dimension maps, facts sorted by id with key-sorted dimension/source maps,
all optional fields explicit. -/
def Filing.canonical_object (f : Filing) : J :=
  let contexts :=
    (sortByKey (fun c => c.id) (f.contexts.map (fun kv => kv.2))).map
      (fun c =>
        (c.id,
          J.obj
            [("period_type", .s c.period_type),
             ("instant", optStrJ c.instant),
             ("start_date", optStrJ c.start_date),
             ("end_date", optStrJ c.end_date),
             ("dimensions", strPairsJ (sortStrPairs c.dimensions))]))
  let facts :=
    (sortByKey (fun x => x.id) f.facts).map
      (fun x =>
        J.obj
          [("id", .s x.id),
           ("concept", .s x.concept),
           ("context_id", .s x.context_id),
           ("unit", optStrJ x.unit),
           ("decimals", x.decimals),
           ("value", x.value),
           ("dimensions", strPairsJ (sortStrPairs x.dimensions)),
           ("source", .obj (x.source.insertionSort (fun a b => pyStrLe a.1 b.1 = true)))])
  .obj
    [("accession", optStrJ f.accession),
     ("cik", optStrJ f.cik),
     ("entity", optStrJ f.entity),
     ("period_end", optStrJ f.period_end),
     ("taxonomy", optStrJ f.taxonomy),
     ("contexts", .obj contexts),
     ("facts", .arr facts)]

/-- `Filing.input_digest`: SHA-256 of the canonical JSON with sorted keys
and compact separators. -/
def Filing.input_digest (f : Filing) : String :=
  sha256Hex (utf8 (dumps f.canonical_object))

/-- Attribute access `filing.ixbrl`: the dataclass defines no such field, so
Python raises `AttributeError`. -/
def Filing.ixbrlAttr (_ : Filing) : Except PyErr J := .error (.attributeError "ixbrl")

/-- Attribute access `filing.taxonomy_package`: same missing-field fault. -/
def Filing.taxonomyPackageAttr (_ : Filing) : Except PyErr J :=
  .error (.attributeError "taxonomy_package")

/-! ### Rule engine (engine.py) -/

structure Finding where
  rule_id : String
  severity : String
  message : String
  fact_ids : List String := []
  details : List (String × J) := []

structure Rule where
  rule_id : String
  description : String := ""
  run : Filing → List Finding

structure ValidationResult where
  input_digest : String
  executed_rules : List String
  findings : List Finding := []

def ValidationResult.error_count (r : ValidationResult) : Nat :=
  (r.findings.filter (fun f => f.severity = "error")).length

def ValidationResult.warning_count (r : ValidationResult) : Nat :=
  (r.findings.filter (fun f => f.severity = "warning")).length

/-- `ValidationResult.status` exactly as engine.py computes it. -/
def ValidationResult.status (r : ValidationResult) : String :=
  if r.error_count > 0 then "risk" else "clean"

/-- `dataclasses.asdict` of a `Finding`. -/
def Finding.asdict (f : Finding) : J :=
  .obj
    [("rule_id", .s f.rule_id),
     ("severity", .s f.severity),
     ("message", .s f.message),
     ("fact_ids", .arr (f.fact_ids.map .s)),
     ("details", .obj f.details)]

/-- `ValidationResult.as_report`. -/
def ValidationResult.as_report (r : ValidationResult) (profile : String) : J :=
  .obj
    [("schema_version", .s "formalfinance.report.v0"),
     ("profile", .s profile),
     ("status", .s r.status),
     ("input_digest", .s r.input_digest),
     ("summary",
       .obj
         [("rules_executed", .i r.executed_rules.length),
          ("error_count", .i r.error_count),
          ("warning_count", .i r.warning_count)]),
     ("executed_rules", .arr (r.executed_rules.map .s)),
     ("findings", .arr (r.findings.map Finding.asdict))]

/-- `ValidationEngine.validate` (the trace logger is a no-op observer and
does not influence the result). -/
def validate (rules : List Rule) (filing : Filing) : ValidationResult :=
  { input_digest := filing.input_digest
    executed_rules := rules.map (fun r => r.rule_id)
    findings := (rules.map (fun r => r.run filing)).flatten }

/-! ### Rules (rules.py, rules_ixbrl.py) -/

/-- `str.replace(",", "").strip()`. -/
def cleanNumTxt (s : String) : String :=
  ⟨stripChars (s.data.filter (fun c => c ≠ ','))⟩

/-- `Fact.numeric_value`: `None` for bools and unparseable strings; floats
pass through; huge integers overflow `float()` (raises). -/
def Fact.numeric_value (fact : Fact) : Except PyErr (Option Fp) :=
  match fact.value with
  | .b _ => .ok none
  | .i n => (floatOfInt n).map some |>.mapError (fun _ => .overflowError)
  | .f v => .ok (some v)
  | .s txt =>
    match fact.unit, fact.decimals with
    | none, .null => .ok none
    | _, _ => .ok (pyParseFloat (cleanNumTxt txt))
  | _ => .ok none

/-- Python `int(str)`: strict signed decimal digits. -/
def pyParseInt (s : String) : Option Int :=
  let cs := stripChars (s.data.filter (fun c => c ≠ '_'))
  let (neg, body) := splitSign cs
  if body.isEmpty ∨ ¬body.all isDigitChar then none
  else
    let v : Int := ofDigits10 (digitsOfChars body)
    some (if neg then -v else v)

/-- The integer decimal count read out of a `decimals` field by
`_rounding_tolerance`: `None`/`INF`/unparseable strings mean no tolerance. -/
def decimalsToInt (decimals : J) : Option Int :=
  match decimals with
  | .null => none
  | .b v => some (if v then 1 else 0)
  | .i d => some d
  | .s txt =>
    if ⟨(lowerChars txt.data)⟩ = ("inf" : String) then none
    else pyParseInt txt
  | _ => none

/-- `0.5 * (10 ** (-d))` in Python floats: a non-negative power stays an
exact integer (overflowing `float()` for huge magnitudes), a negative power
is the correctly rounded double of `10^-d`. -/
def halfPow10 (d : Int) : Except PyErr Fp :=
  if d ≤ 0 then
    (floatOfInt (i10pow (-d).toNat)).map (fun f => (roundRat 1 2).mul f)
      |>.mapError (fun _ => .overflowError)
  else
    .ok ((roundRat 1 2).mul (roundRat 1 (10 ^ d.toNat)))

/-- `_rounding_tolerance` (rules.py). -/
def rounding_tolerance (decimals : J) : Except PyErr Fp :=
  match decimalsToInt decimals with
  | none => .ok (.finite 0 0)
  | some d => halfPow10 d

/-- Replace the binding of `key` in an association list, keeping its
position (CPython dict assignment semantics). -/
def assocSet {α : Type} (l : List (String × α)) (key : String) (v : α) : List (String × α) :=
  match l with
  | [] => [(key, v)]
  | (k, old) :: rest => if k = key then (k, v) :: rest else (k, old) :: assocSet rest key v

/-- `_best_fact_by_context` (rules.py): per context keep the candidate fact
with the largest absolute float magnitude, later facts winning ties. -/
def best_fact_by_context (facts : List Fact) (concepts : List String) :
    Except PyErr (List (String × Fact)) :=
  facts.foldlM
    (fun output fact => do
      if fact.concept ∉ concepts then
        return output
      else
        match ← fact.numeric_value with
        | none => return output
        | some nv =>
          match output.lookup fact.context_id with
          | none => return output ++ [(fact.context_id, fact)]
          | some prior => do
            let priorNv ← prior.numeric_value
            let prior_score := (priorNv.getD (.finite 0 0)).abs
            let this_score := nv.abs
            if Fp.le prior_score this_score then
              return assocSet output fact.context_id fact
            else
              return output)
    []

def assets_concepts : List String := ["us-gaap:Assets", "ifrs-full:Assets"]

def liabilities_concepts : List String := ["us-gaap:Liabilities", "ifrs-full:Liabilities"]

def equity_concepts : List String :=
  ["us-gaap:StockholdersEquity",
   "us-gaap:StockholdersEquityIncludingPortionAttributableToNoncontrollingInterest",
   "ifrs-full:Equity"]

/-- Ascending unique context ids present in all three maps
(`sorted(set(assets) & set(liabilities) & set(equity))`). -/
def commonContexts (a l e : List (String × Fact)) : List String :=
  sortByKey (fun s => s)
    ((a.map (fun kv => kv.1)).eraseDups.filter
      (fun k => (l.any (fun kv => kv.1 = k)) ∧ (e.any (fun kv => kv.1 = k))))

/-- `BalanceSheetEquationRule.run` (rules.py): float evaluation of
`|assets - (liabilities + equity)| <= summed rounding tolerance`. -/
def balanceSheetEquationRun (filing : Filing) : Except PyErr (List Finding) := do
  let assets ← best_fact_by_context filing.facts assets_concepts
  let liabilities ← best_fact_by_context filing.facts liabilities_concepts
  let equity ← best_fact_by_context filing.facts equity_concepts
  (commonContexts assets liabilities equity).foldlM
    (fun findings context_id => do
      match assets.lookup context_id, liabilities.lookup context_id,
          equity.lookup context_id with
      | some a, some l, some e => do
        let a_val := (← a.numeric_value).getD (.finite 0 0)
        let l_val := (← l.numeric_value).getD (.finite 0 0)
        let e_val := (← e.numeric_value).getD (.finite 0 0)
        let diff := (a_val.sub (l_val.add e_val)).abs
        let tol := (← rounding_tolerance a.decimals).add
          ((← rounding_tolerance l.decimals).add (← rounding_tolerance e.decimals))
        if diff.isnan ∨ Fp.lt tol diff then
          return findings ++
            [{ rule_id := "acct.balance_sheet_equation"
               severity := "error"
               message :=
                 "Balance sheet equation mismatch in context '" ++ context_id ++
                   "': assets=" ++ pyFloatRepr a_val ++ ", liabilities=" ++
                   pyFloatRepr l_val ++ ", equity=" ++ pyFloatRepr e_val ++ "."
               fact_ids := [a.id, l.id, e.id]
               details := [("difference", .f diff), ("tolerance", .f tol)] }]
        else
          return findings
      | _, _, _ => return findings)
    []

/-- `InlineMetadataPresenceRule.run` (rules_ixbrl.py): the first statement
reads `filing.ixbrl`, a field `models.Filing` does not define. -/
def inlineMetadataPresenceRun (filing : Filing) : Except PyErr (List Finding) := do
  let ix ← filing.ixbrlAttr
  let ixbrl := pyOr ix (.obj [])
  if pyTruthy ixbrl then
    return []
  else
    return [{ rule_id := "ixbrl.inline_metadata_presence"
              severity := "error"
              message := "Filing is missing `ixbrl` metadata required for inline preflight gating." }]

/-- `_taxonomy` (rules_taxonomy.py): reads `filing.taxonomy_package`, a
field `models.Filing` does not define. -/
def taxonomyOf (filing : Filing) : Except PyErr J := do
  let v ← filing.taxonomyPackageAttr
  let value := pyOr v (.obj [])
  match value with
  | .obj l => return .obj l
  | _ => return .obj []

/-! ### Certificate subsystem (certificate.py) -/

/-- `_unsigned_certificate`: drop any `signature` field. -/
def unsigned_certificate (certificate : J) : J :=
  match certificate with
  | .obj fields => .obj (fields.filter (fun kv => kv.1 ≠ "signature"))
  | other => other

/-- `_sign_hs256`: base64url (unpadded) HMAC-SHA256 of the payload bytes. -/
def sign_hs256 (payload_bytes : List Nat) (signing_secret : String) : String :=
  b64urlNoPad (hmacSha256 (utf8 signing_secret) payload_bytes)

/-- `_default_key_id`: `"hmac-sha256:" + sha256(secret).hexdigest()[:16]`. -/
def default_key_id (signing_secret : String) : String :=
  "hmac-sha256:" ++ ⟨(sha256Hex (utf8 signing_secret)).data.take 16⟩

/-- `sign_certificate` (the `signed_at` timestamp is an environment
input). -/
def sign_certificate (certificate : J) (signing_secret : String)
    (key_id : Option String) (signed_at : String) : Except PyErr J :=
  if signing_secret = "" then
    .error (.valueError "Certificate signing requires a non-empty signing secret.")
  else
    let unsigned := unsigned_certificate certificate
    let payload_bytes := stable_json_bytes unsigned
    let payload_digest := sha256Hex payload_bytes
    let signature_value := sign_hs256 payload_bytes signing_secret
    let fields := match unsigned with | .obj l => l | _ => []
    .ok (.obj (fields ++
      [("signature",
        .obj
          [("schema_version", .s "formalfinance.certificate_signature.v0"),
           ("algorithm", .s "HS256"),
           ("key_id", .s (key_id.getD (default_key_id signing_secret))),
           ("payload_digest", .s payload_digest),
           ("signed_at", .s signed_at),
           ("value", .s signature_value)])]))

/-- One entry of a `checks` list. -/
def mkCheck (check_id : String) (passed : Bool) (message : String) : J :=
  .obj [("check_id", .s check_id), ("passed", .b passed), ("message", .s message)]

def checksAllPassed (checks : List J) : Bool :=
  checks.all (fun c => pyTruthy (jGet c "passed"))

/-- `verify_certificate`: every check is recorded; `verified` is their
conjunction (`hmac.compare_digest` is string equality, the constant-time
property being invisible to values). -/
def verify_certificate (certificate : J) (signing_secret : Option String)
    (require_signature : Bool) : J :=
  let checks0 : List J :=
    [mkCheck "certificate_schema"
      (pyStrOr (jGet certificate "schema_version") = "formalfinance.certificate.v0")
      "Certificate schema version is recognized.",
     mkCheck "certificate_verdict" (pyStrOr (jGet certificate "verdict") = "clean")
      "Certificate verdict is clean.",
     mkCheck "input_digest_present" (pyStrOr (jGet certificate "input_digest") ≠ "")
      "Input digest is present.",
     mkCheck "rules_digest_present" (pyStrOr (jGet certificate "rules_digest") ≠ "")
      "Rules digest is present."]
  let signature := jGet certificate "signature"
  let payload_bytes := stable_json_bytes (unsigned_certificate certificate)
  let payload_digest := sha256Hex payload_bytes
  let sigChecks : List J :=
    match signature with
    | .obj _ =>
      [mkCheck "signature_schema"
        (pyStrOr (jGet signature "schema_version") = "formalfinance.certificate_signature.v0")
        "Signature schema version is recognized.",
       mkCheck "signature_algorithm" (pyStrOr (jGet signature "algorithm") = "HS256")
        "Signature algorithm is supported (HS256).",
       mkCheck "signature_payload_digest"
        (pyStrOr (jGet signature "payload_digest") = payload_digest)
        "Signature payload digest matches certificate payload digest."] ++
      (match signing_secret with
       | none =>
         [mkCheck "signature_secret_provided" false
           "Certificate contains a signature but no signing secret was provided for verification."]
       | some secret =>
         if secret = "" then
           [mkCheck "signature_secret_provided" false
             "Certificate contains a signature but no signing secret was provided for verification."]
         else
           [mkCheck "signature_value_match"
             (sign_hs256 payload_bytes secret = pyStrOr (jGet signature "value"))
             "Signature value matches certificate payload and signing secret."])
    | _ =>
      if require_signature then
        [mkCheck "signature_present" false
          "Required signature block is missing from certificate."]
      else
        [mkCheck "signature_optional" true "Certificate is unsigned and signature is optional."]
  let checks := checks0 ++ sigChecks
  .obj
    [("schema_version", .s "formalfinance.certificate_verification.v0"),
     ("verified", .b (checksAllPassed checks)),
     ("certificate_profile", jGet certificate "profile"),
     ("certificate_tool_version", jGet certificate "tool_version"),
     ("checks", .arr checks)]

/-- `issue_certificate` (timestamp and tool version are environment
inputs). -/
def issue_certificate (profile : String) (result : ValidationResult)
    (signing_secret : Option String) (key_id : Option String)
    (issued_at signed_at tool_version : String) : Except PyErr J :=
  if result.status ≠ "clean" then
    .error (.valueError "Cannot issue certificate when validation status is not clean.")
  else
    let rules_digest := sha256Hex (utf8 (joinWith "," result.executed_rules))
    let certificate : J :=
      .obj
        [("schema_version", .s "formalfinance.certificate.v0"),
         ("tool_version", .s tool_version),
         ("issued_at", .s issued_at),
         ("profile", .s profile),
         ("input_digest", .s result.input_digest),
         ("rules_digest", .s rules_digest),
         ("verdict", .s "clean")]
    match signing_secret with
    | some secret =>
      if secret ≠ "" then sign_certificate certificate secret key_id signed_at
      else .ok certificate
    | none => .ok certificate

/-! ### Proof bundle subsystem (proof.py) -/

/-- `dict.get(key, default)`. -/
def jGetD (x : J) (key : String) (dflt : J) : J :=
  match x with
  | .obj fields => (fields.lookup key).getD dflt
  | _ => dflt

/-- Python `list(x)`: lists as-is, strings to characters, dicts to keys,
anything else is not iterable. -/
def pyList : J → Except PyErr (List J)
  | .arr l => .ok l
  | .s v => .ok (v.data.map (fun c => .s ⟨[c]⟩))
  | .obj l => .ok (l.map (fun kv => .s kv.1))
  | _ => .error (.typeError "object is not iterable")

def isObjJ : J → Bool
  | .obj _ => true
  | _ => false

/-- `_decimal_from_fact_value` (proof.py): exact `Decimal` of the fact
value, `None` where the source returns `None` (the `Decimal(str(float))`
and comma-cleaned string conversions cannot fail on reachable inputs). -/
def decimal_from_fact_value (fact : Fact) : Option Dec :=
  match fact.value with
  | .b _ => none
  | .i n => some (decOfInt n)
  | .f v => (decParse (pyFloatRepr v)).toOption
  | .s txt =>
    let t := cleanNumTxt txt
    if t = "" then none else (decParse t).toOption
  | _ => none

/-- `_decimal_places`: `max(0, -exponent)` of the normalized value;
`int()` of a special exponent (`'n'`/`'F'`) raises `ValueError`. -/
def decimal_places (value : Dec) : Except PyErr Nat :=
  match decNormalize value with
  | .fin _ _ e => .ok (max 0 (-e)).toNat
  | _ => .error (.valueError "invalid literal for int()")

/-- `_to_scaled_int`: multiply by the scale under the context, compare with
the rounded-to-integer value, and fail when they differ. -/
def to_scaled_int (value : Dec) (scale : Int) : Except PyErr Int := do
  let scaled ← decMul value (decOfInt scale)
  let integral := decToIntegral scaled
  if decNe scaled integral then
    .error (.valueError "cannot be represented exactly at scale")
  else
    decToInt integral

/-- One arithmetic claim of `_balance_sheet_claims` for a context whose
three best facts convert to decimals. -/
def buildClaim (context_id : String) (aF lF eF : Fact) (av lv ev : Dec) :
    Except PyErr J := do
  let tA ← rounding_tolerance aF.decimals
  let tL ← rounding_tolerance lF.decimals
  let tE ← rounding_tolerance eF.decimals
  let dA ← decParse (pyFloatRepr tA)
  let dL ← decParse (pyFloatRepr tL)
  let dE ← decParse (pyFloatRepr tE)
  let tolerance ← do
    let s ← decAdd dA dL
    decAdd s dE
  let difference ← do
    let s ← decAdd lv ev
    let d ← decSub av s
    pure (decAbs d)
  let dps ← [av, lv, ev, tolerance, difference].mapM decimal_places
  let scale_power := dps.foldl max 0
  let scale : Int := if scale_power > 0 then i10pow scale_power else 1
  let within ← decLe difference tolerance
  let assets_scaled ← to_scaled_int av scale
  let liabilities_scaled ← to_scaled_int lv scale
  let equity_scaled ← to_scaled_int ev scale
  let difference_scaled ← to_scaled_int difference scale
  let tolerance_scaled ← to_scaled_int tolerance scale
  return .obj
    [("claim_id", .s ("acct.balance_sheet_equation:" ++ context_id)),
     ("rule_id", .s "acct.balance_sheet_equation"),
     ("context_id", .s context_id),
     ("fact_ids", .arr [.s aF.id, .s lF.id, .s eF.id]),
     ("assets", .s (decStr av)),
     ("liabilities", .s (decStr lv)),
     ("equity", .s (decStr ev)),
     ("difference", .s (decStr difference)),
     ("tolerance", .s (decStr tolerance)),
     ("within_tolerance", .b within),
     ("lean",
       .obj
         [("scale", .i scale),
          ("assets_scaled", .i assets_scaled),
          ("liabilities_scaled", .i liabilities_scaled),
          ("equity_scaled", .i equity_scaled),
          ("difference_scaled", .i difference_scaled),
          ("tolerance_scaled", .i tolerance_scaled)])]

/-- `_balance_sheet_claims` (proof.py). -/
def balance_sheet_claims (filing : Filing) : Except PyErr (List J) := do
  let assets ← best_fact_by_context filing.facts assets_concepts
  let liabilities ← best_fact_by_context filing.facts liabilities_concepts
  let equity ← best_fact_by_context filing.facts equity_concepts
  (commonContexts assets liabilities equity).foldlM
    (fun claims context_id =>
      match assets.lookup context_id, liabilities.lookup context_id,
          equity.lookup context_id with
      | some aF, some lF, some eF =>
        match decimal_from_fact_value aF, decimal_from_fact_value lF,
            decimal_from_fact_value eF with
        | some av, some lv, some ev => do
          let claim ← buildClaim context_id aF lF eF av lv ev
          return claims ++ [claim]
        | _, _, _ => return claims
      | _, _, _ => return claims)
    []

/-- `build_proof_bundle` (proof.py); `generated_at` is an environment
input. -/
def build_proof_bundle (filing : Filing) (profile : String) (report : J)
    (result : ValidationResult) (certificate : Option J)
    (generated_at : String) : Except PyErr J := do
  let claims ← balance_sheet_claims filing
  let summary ←
    match pyOr (jGet report "summary") (.obj []) with
    | .obj l => .ok l
    | _ => .error (.typeError "cannot convert to dict")
  let baseFields : List (String × J) :=
    [("schema_version", .s "formalfinance.proof_bundle.v0"),
     ("generated_at", .s generated_at),
     ("profile", .s profile),
     ("status", jGet report "status"),
     ("input_digest", .s result.input_digest),
     ("report_digest", .s (sha256Hex (stable_json_bytes report))),
     ("report_summary", .obj summary),
     ("executed_rules", .arr (result.executed_rules.map .s)),
     ("findings_digest",
       .s (sha256Hex (stable_json_bytes (.obj [("findings", jGetD report "findings" (.arr []))])))),
     ("arithmetic_claims", .arr claims)]
  match certificate with
  | some cert =>
    return .obj (baseFields ++ [("certificate_digest", .s (sha256Hex (stable_json_bytes cert)))])
  | none => return .obj baseFields

/-- The observable outcome of `run_lean_replay` (a subprocess call, so an
environment input to the replay). -/
structure LeanReplayResult where
  status : String
  message : String
  return_code : Option Int := none
  stdout : String := ""
  stderr : String := ""

/-- The `FileNotFoundError` branch of `run_lean_replay`: the Lean binary is
absent from the environment. -/
def leanReplayUnavailable (lean_bin : String) : LeanReplayResult :=
  { status := "unavailable"
    message := "Lean binary '" ++ lean_bin ++ "' was not found on PATH." }

/-- `LeanReplayResult.as_dict` (`script`/`command` carry no verification
content and are folded to strings here). -/
def LeanReplayResult.asDict (r : LeanReplayResult) : J :=
  .obj
    [("status", .s r.status),
     ("message", .s r.message),
     ("return_code", match r.return_code with | some c => .i c | none => .null),
     ("stdout", .s r.stdout),
     ("stderr", .s r.stderr)]

def mkCheckD (check_id : String) (passed : Bool) (message : String) (details : J) : J :=
  .obj
    [("check_id", .s check_id), ("passed", .b passed), ("message", .s message),
     ("details", details)]

/-- Python `==` on two lists. -/
def pyListEq (a b : List J) : Bool := listEqWith pyEq a b

/-- The recomputed verdict of one arithmetic claim:
`|assets - (liabilities + equity)| <= tolerance` from the claim's decimal
fields. -/
def replayClaim (claim : J) : Except PyErr Bool := do
  let a ← decParse (pyStr (jGet claim "assets"))
  let l ← decParse (pyStr (jGet claim "liabilities"))
  let e ← decParse (pyStr (jGet claim "equity"))
  let t ← decParse (pyStr (jGet claim "tolerance"))
  let s ← decAdd l e
  let d ← decSub a s
  let recomputed ← decLe (decAbs d) t
  return recomputed

/-- The checks of `replay_proof_bundle` other than the optional external
`lean_replay` check, in emission order. -/
def replayCoreChecks (proof : J) (report : Option J) (certificate : Option J)
    (signing_secret : Option String) (require_certificate_signature : Bool) :
    Except PyErr (List J) := do
  let baseChecks : List J :=
    [mkCheck "proof_schema"
      (pyStrOr (jGet proof "schema_version") = "formalfinance.proof_bundle.v0")
      "Proof schema version is recognized.",
     mkCheck "proof_input_digest" (pyStrOr (jGet proof "input_digest") ≠ "")
      "Proof input digest is present.",
     mkCheck "proof_report_digest" (pyStrOr (jGet proof "report_digest") ≠ "")
      "Proof report digest is present."]
  let reportChecks : Except PyErr (List J) :=
    match report with
    | none => .ok []
    | some rep => do
      let computed_report_digest := sha256Hex (stable_json_bytes rep)
      let proof_rules ← pyList (pyOr (jGet proof "executed_rules") (.arr []))
      let report_rules ← pyList (pyOr (jGet rep "executed_rules") (.arr []))
      return [mkCheck "report_digest_match"
          (computed_report_digest = pyStrOr (jGet proof "report_digest"))
          "Report digest matches proof payload.",
         mkCheck "report_input_digest_match"
          (pyStrOr (jGet rep "input_digest") = pyStrOr (jGet proof "input_digest"))
          "Report input digest matches proof input digest.",
         mkCheckD "executed_rules_match" (pyListEq proof_rules report_rules)
          "Executed rule sequence matches between report and proof."
          (.obj [("proof_rules", .i proof_rules.length),
                 ("report_rules", .i report_rules.length)])]
  let repChecks ← reportChecks
  let claimRows ← pyList (jGetD proof "arithmetic_claims" (.arr []))
  let claims := claimRows.filter isObjJ
  let claimChecks : List J :=
    claims.map (fun claim =>
      let claim_id := pyStr (pyOr (jGet claim "claim_id") (.s "unknown"))
      let expected := pyTruthy (jGet claim "within_tolerance")
      match replayClaim claim with
      | .ok recomputed =>
        mkCheckD ("claim:" ++ claim_id) (recomputed == expected)
          "Arithmetic claim replayed with expected result."
          (.obj [("expected", .b expected), ("recomputed", .b recomputed)])
      | .error _ =>
        mkCheck ("claim:" ++ claim_id) false "Arithmetic claim is invalid.")
  let certChecks : List J :=
    match certificate with
    | some cert =>
      let expected_digest := pyStrOr (jGet proof "certificate_digest")
      let digestChecks :=
        if expected_digest ≠ "" then
          [mkCheck "certificate_digest_match"
            (expected_digest = sha256Hex (stable_json_bytes cert))
            "Certificate digest matches proof payload."]
        else []
      let verification :=
        verify_certificate cert signing_secret require_certificate_signature
      digestChecks ++
        [mkCheckD "certificate_signature_verify" (pyTruthy (jGet verification "verified"))
          "Certificate signature verification succeeded."
          (.obj [("verification", verification)])]
    | none =>
      if require_certificate_signature then
        [mkCheck "certificate_required" false
          "Certificate signature was required but no certificate payload was provided."]
      else []
  return baseChecks ++ repChecks ++ claimChecks ++ certChecks

/-- The `lean_replay` check entry for an external run outcome. -/
def leanCheck (leanResult : LeanReplayResult) : J :=
  mkCheckD "lean_replay" (leanResult.status = "ok") leanResult.message
    (.obj [("return_code",
             match leanResult.return_code with | some c => .i c | none => .null)])

/-- `replay_proof_bundle` (proof.py).  `run_lean`/`leanResult` model the
optional external decision-procedure call and its environment-determined
outcome. -/
def replay_proof_bundle (proof : J) (report : Option J) (certificate : Option J)
    (signing_secret : Option String) (require_certificate_signature : Bool)
    (run_lean : Bool) (leanResult : LeanReplayResult) : Except PyErr J := do
  let core ← replayCoreChecks proof report certificate signing_secret
    require_certificate_signature
  let checks := core ++ (if run_lean then [leanCheck leanResult] else [])
  return .obj
    [("schema_version", .s "formalfinance.proof_replay.v0"),
     ("verified", .b (checksAllPassed checks)),
     ("checks", .arr checks),
     ("lean", if run_lean then leanResult.asDict else .null)]

/-! ### General lemmas about checks -/

theorem checksAllPassed_append (a b : List J) :
    checksAllPassed (a ++ b) = (checksAllPassed a && checksAllPassed b) := by
  simp [checksAllPassed]

theorem checksAllPassed_mkCheck_false (check_id msg : String) :
    checksAllPassed [mkCheck check_id false msg] = false := by
  simp [checksAllPassed, mkCheck, jGet, List.lookup, pyTruthy]

/-! ### C1 — ValidationResult.status never takes the value "review" -/

def c1Result : ValidationResult :=
  { input_digest := "d"
    executed_rules := ["dei.metadata_consistency"]
    findings :=
      [{ rule_id := "dei.metadata_consistency"
         severity := "warning"
         message := "Top-level entity name does not exactly match DEI entity name fact values." }] }

/-- C1: the claim (and tests/test_engine.py::test_warning_only_status_is_review)
require `status == "review"` when `error_count == 0` and `warning_count > 0`,
but `ValidationResult.status` in engine.py returns only `"risk"` or
`"clean"`: on a warnings-only result it evaluates to `"clean"`, and no result
at all has status `"review"`. -/
theorem c1_warning_only_status_is_clean_not_review :
    c1Result.error_count = 0 ∧ c1Result.warning_count = 1 ∧
      c1Result.status = "clean" ∧
      ∀ r : ValidationResult, (r.status == "review") = false := by
  refine ⟨rfl, rfl, rfl, ?_⟩
  intro r
  unfold ValidationResult.status
  split <;> rfl

/-! ### C2 — Filing does not carry the ixbrl / taxonomy_package components -/

/-- C2: the claim says every `Filing` carries optional `ixbrl` and
`taxonomy_package` components so the inline-document and taxonomy rules are
total.  The `models.py` dataclass defines neither field, so the very first
statement of `InlineMetadataPresenceRule.run` (`filing.ixbrl`) and of
`_taxonomy` (`filing.taxonomy_package`) raises `AttributeError` on every
filing, including any produced by `Filing.from_dict`. -/
theorem c2_ixbrl_and_taxonomy_rules_fault_on_every_filing :
    ∀ filing : Filing,
      inlineMetadataPresenceRun filing = .error (.attributeError "ixbrl") ∧
        taxonomyOf filing = .error (.attributeError "taxonomy_package") ∧
        ∀ obj f, Filing.from_dict obj = some f →
          inlineMetadataPresenceRun f = .error (.attributeError "ixbrl") := by
  intro filing
  exact ⟨rfl, rfl, fun _ _ _ => rfl⟩

/-- Witness for C2 at the filing `Filing.from_dict` builds from `{}`. -/
theorem c2_ixbrl_and_taxonomy_rules_fault_on_every_filing_witness :
    ∃ f, Filing.from_dict (J.obj []) = some f ∧
      inlineMetadataPresenceRun f = .error (.attributeError "ixbrl") ∧
      taxonomyOf f = .error (.attributeError "taxonomy_package") := by
  refine ⟨_, rfl, ?_, ?_⟩
  · exact (c2_ixbrl_and_taxonomy_rules_fault_on_every_filing ({} : Filing)).2.2
      (J.obj []) _ rfl
  · exact (c2_ixbrl_and_taxonomy_rules_fault_on_every_filing ({} : Filing)).2.1

/-! ### C3 — an unavailable Lean binary makes the replay verdict false -/

/-- C3: `run_lean_replay` reports a missing Lean binary with status
`"unavailable"`, but `replay_proof_bundle` then records the `lean_replay`
check as failed (`passed = status == "ok"`), so `verified` is false for
every bundle — including bundles whose every other check passes — where the
claim (and the spec) require the unavailable external checker to be
non-fatal, keeping `verified == true`. -/
theorem c3_unavailable_lean_forces_verified_false :
    ∀ (proof : J) (report certificate : Option J) (signing_secret : Option String)
      (require_certificate_signature : Bool) (lean_bin : String) (r : J),
      replay_proof_bundle proof report certificate signing_secret
          require_certificate_signature true (leanReplayUnavailable lean_bin) = .ok r →
      (leanReplayUnavailable lean_bin).status = "unavailable" ∧
        pyTruthy (jGet r "verified") = false := by
  intro proof report certificate signing_secret reqSig lean_bin r h
  refine ⟨rfl, ?_⟩
  unfold replay_proof_bundle at h
  cases hc : replayCoreChecks proof report certificate signing_secret reqSig with
  | error e => rw [hc] at h; exact absurd h (by simp [Except.bind])
  | ok core =>
    rw [hc] at h
    simp only [Except.bind, pure, Except.pure, if_pos rfl] at h
    cases h
    simp [jGet, List.lookup, checksAllPassed_append, checksAllPassed, leanCheck,
      mkCheckD, pyTruthy, leanReplayUnavailable]

/-- A minimal proof bundle whose every non-Lean replay check passes. -/
def c3Proof : J :=
  .obj
    [("schema_version", .s "formalfinance.proof_bundle.v0"),
     ("input_digest", .s "a"), ("report_digest", .s "b")]

/-- Witness for C3: on `c3Proof` every other check passes, yet the replay
with the Lean binary missing is not verified. -/
theorem c3_unavailable_lean_forces_verified_false_witness :
    (∃ core, replayCoreChecks c3Proof none none none false = .ok core ∧
        checksAllPassed core = true) ∧
      (∃ r, replay_proof_bundle c3Proof none none none false true
            (leanReplayUnavailable "lean") = .ok r ∧
          pyTruthy (jGet r "verified") = false) :=
  ⟨⟨_, rfl, rfl⟩,
   ⟨_, rfl,
    (c3_unavailable_lean_forces_verified_false c3Proof none none none false "lean" _
        rfl).2⟩⟩

/-! ### C10 — a signed certificate never verifies without the secret -/

/-- C10: whenever a certificate carries a `signature` block and
`verify_certificate` is called without a signing secret, the
`signature_secret_provided` check is recorded as failed, so `verified` is
false regardless of `require_signature`. -/
theorem c10_signed_certificate_never_verifies_without_secret :
    ∀ (certificate : J) (sig : List (String × J)) (require_signature : Bool),
      jGet certificate "signature" = .obj sig →
      (mkCheck "signature_secret_provided" false
          "Certificate contains a signature but no signing secret was provided for verification."
        ∈ (match jGet (verify_certificate certificate none require_signature) "checks" with
           | .arr checks => checks
           | _ => [])) ∧
        pyTruthy (jGet (verify_certificate certificate none require_signature)
          "verified") = false := by
  intro certificate sig require_signature h
  unfold verify_certificate
  rw [h]
  constructor
  · simp [jGet, List.lookup]
  · simp [jGet, List.lookup, pyTruthy, checksAllPassed, mkCheck]

/-- A clean validation result for concrete certificate witnesses. -/
def cleanResult : ValidationResult :=
  { input_digest := "deadbeef", executed_rules := ["r1"], findings := [] }

/-- A concrete signed certificate. -/
def c10Cert : J :=
  match issue_certificate "demo" cleanResult (some "s3cret") none "T0" "T1" "0.3.0" with
  | .ok c => c
  | .error _ => .null

/-- Witness for C10 at a concrete signed certificate. -/
theorem c10_signed_certificate_never_verifies_without_secret_witness :
    ∃ sig, jGet c10Cert "signature" = .obj sig ∧
      pyTruthy (jGet (verify_certificate c10Cert none true) "verified") = false :=
  ⟨_, rfl,
   (c10_signed_certificate_never_verifies_without_secret c10Cert _ true rfl).2⟩

/-! ### C5 — signature round trip and tamper detection -/

/-- Replace the `value` entry of the `signature` block by another string
(the tampering operation of the claim). -/
def setSignatureValue (certificate : J) (v : String) : J :=
  match certificate with
  | .obj fields =>
    .obj (fields.map (fun kv =>
      if kv.1 = "signature" then
        (kv.1,
          match kv.2 with
          | .obj sig => .obj (sig.map (fun sv => if sv.1 = "value" then (sv.1, .s v) else sv))
          | other => other)
      else kv))
  | other => other

theorem pyStrOr_s (v : String) : pyStrOr (.s v) = v := by
  by_cases h : v = "" <;> simp [pyStrOr, pyTruthy, pyStr, h]

/-- C5: for a well-formed unsigned certificate as produced by
`issue_certificate` (clean verdict, non-empty digests) and a non-empty
secret, `verify_certificate (sign_certificate cert secret) secret` passes
every check, and altering the stored signature value to any different
string makes verification fail. -/
theorem c5_sign_verify_roundtrip_and_tamper_detection :
    ∀ (profile : String) (result : ValidationResult)
      (issued signed_at tool_version secret : String) (cert signedCert : J)
      (reqSig : Bool) (v' : String),
      result.status = "clean" →
      result.input_digest ≠ "" →
      secret ≠ "" →
      issue_certificate profile result none none issued signed_at tool_version = .ok cert →
      sign_certificate cert secret none signed_at = .ok signedCert →
      pyTruthy (jGet (verify_certificate signedCert (some secret) reqSig) "verified") =
          true ∧
        (v' ≠ pyStrOr (jGet (jGet signedCert "signature") "value") →
          pyTruthy (jGet (verify_certificate (setSignatureValue signedCert v')
              (some secret) reqSig) "verified") = false) := by
  intro profile result issued signed_at tool_version secret cert signedCert reqSig v'
    hclean hdig hsec hissue hsign
  unfold issue_certificate at hissue
  rw [if_neg (by simp [hclean])] at hissue
  cases hissue
  unfold sign_certificate at hsign
  rw [if_neg hsec] at hsign
  cases hsign
  constructor
  · simp [verify_certificate, unsigned_certificate, jGet, List.lookup, List.filter,
      checksAllPassed, mkCheck, pyTruthy, pyStrOr_s, sha256Hex_ne_empty, hdig, hsec]
  · intro hne
    simp +decide [jGet, List.lookup, unsigned_certificate, List.filter, pyStrOr_s] at hne
    simp [verify_certificate, setSignatureValue, unsigned_certificate, jGet, List.lookup,
      List.filter, List.map, checksAllPassed, mkCheck, pyTruthy, pyStrOr_s,
      sha256Hex_ne_empty, hdig, hsec, Ne.symm hne]

/-- Witness for C5 at a concrete certificate, secret, and tampered value. -/
theorem c5_sign_verify_roundtrip_and_tamper_detection_witness :
    ∃ cert signedCert,
      issue_certificate "demo" cleanResult none none "T0" "T1" "0.3.0" = .ok cert ∧
        sign_certificate cert "s3cret" none "T1" = .ok signedCert ∧
        pyTruthy (jGet (verify_certificate signedCert (some "s3cret") true)
          "verified") = true ∧
        pyTruthy (jGet (verify_certificate (setSignatureValue signedCert "tampered")
            (some "s3cret") true) "verified") = false := by
  have h := c5_sign_verify_roundtrip_and_tamper_detection "demo" cleanResult "T0" "T1"
    "0.3.0" "s3cret" _ _ true "tampered" rfl (by decide) (by decide) rfl rfl
  exact ⟨_, _, rfl, rfl, h.1, h.2 (by decide)⟩

/-! ### C6 — the proof layer silently rounds at 29+ significant digits -/

def c6Fact (i concept : String) (v : Int) : Fact :=
  { id := i, concept := concept, context_id := "c1", value := .i v, unit := some "USD",
    decimals := .i 0 }

/-- A balance-sheet filing whose Assets value has 29 significant digits. -/
def c6Filing : Filing :=
  { contexts := [("c1", { id := "c1", period_type := "instant" })],
    facts :=
      [c6Fact "f1" "us-gaap:Assets" (10 ^ 28 + 1),
       c6Fact "f2" "us-gaap:Liabilities" (10 ^ 28),
       c6Fact "f3" "us-gaap:StockholdersEquity" 1] }

/-- C6: `_to_scaled_int` inherits the default `Decimal` context (28
significant digits, round-half-even), so `value * scale` is silently rounded
before the exactness test.  On `c6Filing` the emitted claim stores the exact
assets value `10^28 + 1` and scale 10, yet `assets_scaled` is the rounded
`10^29` instead of `(10^28 + 1) * 10` — a claim emitted with silently
rounded values and no failure, contradicting the exactness contract. -/
theorem c6_to_scaled_int_silently_rounds_beyond_context_precision :
    ∃ claim,
      balance_sheet_claims c6Filing = .ok [claim] ∧
        decParse (pyStr (jGet claim "assets")) = .ok (decOfInt (10 ^ 28 + 1)) ∧
        jGet (jGet claim "lean") "scale" = .i 10 ∧
        jGet (jGet claim "lean") "assets_scaled" = .i (10 ^ 29) ∧
        to_scaled_int (decOfInt (10 ^ 28 + 1)) 10 = .ok (10 ^ 29) ∧
        (10 ^ 29 : Int) ≠ (10 ^ 28 + 1) * 10 := by
  exact ⟨_, rfl, rfl, rfl, rfl, rfl, by decide⟩

/-! ### C9 — the float rule layer and the Decimal proof layer can disagree -/

def c9Fact (i concept : String) (v : Int) : Fact :=
  { id := i, concept := concept, context_id := "c1", value := .i v, unit := some "USD" }

/-- Assets `2^53`, Liabilities `2^53 + 1` (not representable in binary64,
rounds to `2^53`), Equity `0`, no `decimals` (zero tolerance). -/
def c9Filing : Filing :=
  { contexts := [("c1", { id := "c1", period_type := "instant" })],
    facts :=
      [c9Fact "f1" "us-gaap:Assets" (2 ^ 53),
       c9Fact "f2" "us-gaap:Liabilities" (2 ^ 53 + 1),
       c9Fact "f3" "us-gaap:StockholdersEquity" 0] }

/-- Counterexample for C9: on `c9Filing` the float-based
`BalanceSheetEquationRule` sees `|2^53 - (float(2^53 + 1) + 0)| = 0` and
emits no finding, while the proof layer's exact-Decimal claim for the same
context carries `within_tolerance = false` — the two evaluations disagree. -/
theorem c9_float_rule_and_decimal_proof_disagree :
    balanceSheetEquationRun c9Filing = .ok [] ∧
      ∃ claim,
        balance_sheet_claims c9Filing = .ok [claim] ∧
          jGet claim "within_tolerance" = .b false :=
  ⟨rfl, _, rfl, rfl⟩

/-! ### Decimal print/parse round trip

`replay_proof_bundle` re-reads the decimal strings `_balance_sheet_claims`
stored with `str(Decimal)`; the round-trip lemma `decParse_decStr` says the
constructor recovers exactly the printed finite value. -/

theorem digitChar_toNat {d : Nat} (h : d < 10) : (Char.ofNat (48 + d)).toNat = 48 + d := by
  interval_cases d <;> rfl

theorem digitChar_isDigit {d : Nat} (h : d < 10) : isDigitChar (Char.ofNat (48 + d)) = true := by
  interval_cases d <;> rfl

theorem digitChar_not_space {d : Nat} (h : d < 10) :
    isSpaceChar (Char.ofNat (48 + d)) = false := by
  interval_cases d <;> rfl

theorem digitChar_lower {d : Nat} (h : d < 10) :
    (if 65 ≤ (Char.ofNat (48 + d)).toNat ∧ (Char.ofNat (48 + d)).toNat ≤ 90 then
        Char.ofNat ((Char.ofNat (48 + d)).toNat + 32)
      else Char.ofNat (48 + d)) = Char.ofNat (48 + d) := by
  interval_cases d <;> rfl

/-- The character block of a digit list. -/
def charsOf (ds : List Nat) : List Char := ds.map (fun d => Char.ofNat (48 + d))

theorem digitsOfChars_append (a b : List Char) :
    digitsOfChars (a ++ b) = digitsOfChars a ++ digitsOfChars b := by
  simp [digitsOfChars]

theorem digitsOfChars_charsOf {ds : List Nat} (h : ∀ d ∈ ds, d < 10) :
    digitsOfChars (charsOf ds) = ds := by
  induction ds with
  | nil => rfl
  | cons d tl ih =>
    have hd : d < 10 := h d (List.mem_cons_self d tl)
    simp only [charsOf, digitsOfChars, List.map] at *
    rw [digitChar_toNat hd]
    simp [ih (fun x hx => h x (List.mem_cons_of_mem d hx))]

theorem digitsAux_facts :
    ∀ fuel n, n < fuel →
      digitsAux fuel n ≠ [] ∧ (∀ d ∈ digitsAux fuel n, d < 10) ∧
        ofDigits10 (digitsAux fuel n) = n := by
  intro fuel
  induction fuel with
  | zero => intro n h; omega
  | succ f ih =>
    intro n h
    by_cases h10 : n < 10
    · simp [digitsAux, h10, ofDigits10]
    · have hrec := ih (n / 10) (by omega)
      simp only [digitsAux, if_neg h10]
      refine ⟨by simp, ?_, ?_⟩
      · intro d hd
        rcases List.mem_append.mp hd with h1 | h2
        · exact hrec.2.1 d h1
        · simp at h2; omega
      · have : ofDigits10 (digitsAux f (n / 10) ++ [n % 10]) =
            ofDigits10 (digitsAux f (n / 10)) * 10 + n % 10 := by
          simp [ofDigits10, List.foldl_append]
        rw [this, hrec.2.2]
        omega

theorem toDigits10_ne_nil (n : Nat) : toDigits10 n ≠ [] :=
  (digitsAux_facts (n + 1) n (by omega)).1

theorem toDigits10_lt (n : Nat) : ∀ d ∈ toDigits10 n, d < 10 :=
  (digitsAux_facts (n + 1) n (by omega)).2.1

theorem ofDigits10_toDigits10 (n : Nat) : ofDigits10 (toDigits10 n) = n :=
  (digitsAux_facts (n + 1) n (by omega)).2.2

theorem ofDigits10_append (a b : List Nat) :
    ofDigits10 (a ++ b) = b.foldl (fun acc d => acc * 10 + d) (ofDigits10 a) := by
  simp [ofDigits10, List.foldl_append]

theorem ofDigits10_zeros_prefix (k : Nat) (ds : List Nat) :
    ofDigits10 (List.replicate k 0 ++ ds) = ofDigits10 ds := by
  induction k with
  | zero => rfl
  | succ m ih => simpa [List.replicate, ofDigits10] using ih

theorem takeWhile_append_all {p : Char → Bool} {l : List Char} (r : List Char)
    (h : ∀ c ∈ l, p c = true) : (l ++ r).takeWhile p = l ++ r.takeWhile p := by
  induction l with
  | nil => rfl
  | cons x tl ih =>
    simp only [List.cons_append, List.takeWhile_cons, h x (List.mem_cons_self x tl)]
    simp [ih (fun c hc => h c (List.mem_cons_of_mem x hc))]

theorem dropWhile_append_all {p : Char → Bool} {l : List Char} (r : List Char)
    (h : ∀ c ∈ l, p c = true) : (l ++ r).dropWhile p = r.dropWhile p := by
  induction l with
  | nil => rfl
  | cons x tl ih =>
    simp only [List.cons_append, List.dropWhile_cons, h x (List.mem_cons_self x tl)]
    simp [ih (fun c hc => h c (List.mem_cons_of_mem x hc))]

theorem takeWhile_all {p : Char → Bool} {l : List Char} (h : ∀ c ∈ l, p c = true) :
    l.takeWhile p = l := by
  have := takeWhile_append_all (p := p) (l := l) [] h
  simpa using this

theorem dropWhile_all {p : Char → Bool} {l : List Char} (h : ∀ c ∈ l, p c = true) :
    l.dropWhile p = [] := by
  have := dropWhile_append_all (p := p) (l := l) [] h
  simpa using this

theorem dropWhile_nil_of_head {p : Char → Bool} {l : List Char}
    (h : ∀ c ∈ l.head?, p c = false) : l.dropWhile p = l := by
  cases l with
  | nil => rfl
  | cons x tl => simp [List.dropWhile_cons, h x rfl]

theorem dropWhile_eq_self_all {p : Char → Bool} {l : List Char}
    (h : ∀ c ∈ l, p c = false) : l.dropWhile p = l := by
  cases l with
  | nil => rfl
  | cons x tl => simp [List.dropWhile_cons, h x (List.mem_cons_self x tl)]

theorem stripChars_eq_self {l : List Char} (h : ∀ c ∈ l, isSpaceChar c = false) :
    stripChars l = l := by
  unfold stripChars
  rw [dropWhile_eq_self_all h,
    dropWhile_eq_self_all (fun c hc => h c (List.mem_reverse.mp hc)),
    List.reverse_reverse]

theorem charsOf_ne_nil {ds : List Nat} (h : ds ≠ []) : charsOf ds ≠ [] := by
  simp [charsOf, h]

theorem charsOf_length (ds : List Nat) : (charsOf ds).length = ds.length := by
  simp [charsOf]

theorem charsOf_all_digit {ds : List Nat} (h : ∀ d ∈ ds, d < 10) :
    ∀ ch ∈ charsOf ds, isDigitChar ch = true := by
  intro ch hch
  rcases List.mem_map.mp hch with ⟨d, hd, rfl⟩
  exact digitChar_isDigit (h d hd)

/-- `parseDecBody` on a plain digit block. -/
theorem parseDecBody_int (ip : List Nat) (hip : ∀ d ∈ ip, d < 10) (hne : ip ≠ []) :
    parseDecBody (charsOf ip) = some (ofDigits10 ip, 0) := by
  have hipd := charsOf_all_digit hip
  unfold parseDecBody
  rw [takeWhile_all hipd, dropWhile_all hipd]
  simp [List.isEmpty_iff, charsOf_ne_nil hne, digitsOfChars_charsOf hip]

/-- `parseDecBody` on `ip . fp`. -/
theorem parseDecBody_frac (ip fp : List Nat) (hip : ∀ d ∈ ip, d < 10)
    (hfp : ∀ d ∈ fp, d < 10) (hne : ip ≠ []) :
    parseDecBody (charsOf ip ++ '.' :: charsOf fp) =
      some (ofDigits10 (ip ++ fp), -(fp.length : Int)) := by
  have hipd := charsOf_all_digit hip
  have hfpd := charsOf_all_digit hfp
  unfold parseDecBody
  rw [takeWhile_append_all _ hipd, dropWhile_append_all _ hipd,
    show List.takeWhile isDigitChar ('.' :: charsOf fp) = [] from rfl,
    show List.dropWhile isDigitChar ('.' :: charsOf fp) = '.' :: charsOf fp from rfl]
  simp only [List.append_nil, takeWhile_all hfpd, dropWhile_all hfpd]
  simp [List.isEmpty_iff, charsOf_ne_nil hne, charsOf_length, digitsOfChars_append,
    digitsOfChars_charsOf hip, digitsOfChars_charsOf hfp]

/-- `parseDecBody` on `ip e±xd`. -/
theorem parseDecBody_int_exp (ip xd : List Nat) (xneg : Bool)
    (hip : ∀ d ∈ ip, d < 10) (hxd : ∀ d ∈ xd, d < 10)
    (hne : ip ≠ []) (hxdne : xd ≠ []) :
    parseDecBody (charsOf ip ++ 'e' :: (if xneg then '-' else '+') :: charsOf xd) =
      some (ofDigits10 ip,
        if xneg then -(ofDigits10 xd : Int) else (ofDigits10 xd : Int)) := by
  have hipd := charsOf_all_digit hip
  have hxdd := charsOf_all_digit hxd
  unfold parseDecBody
  cases xneg with
  | true =>
    rw [show (if true = true then '-' else '+') = '-' from rfl, takeWhile_append_all _ hipd, dropWhile_append_all _ hipd,
      show List.takeWhile isDigitChar ('e' :: '-' :: charsOf xd) = [] from rfl,
      show List.dropWhile isDigitChar ('e' :: '-' :: charsOf xd) =
        'e' :: '-' :: charsOf xd from rfl]
    simp only [List.append_nil, splitSign, takeWhile_all hxdd, dropWhile_all hxdd]
    simp [List.isEmpty_iff, List.map_eq_nil_iff, charsOf_ne_nil hne, charsOf_ne_nil hxdne,
      takeWhile_all hxdd, hxdd, charsOf_length, digitsOfChars_charsOf hip,
      digitsOfChars_charsOf hxd, List.length_pos, List.getElem_mem]
    all_goals exact hxdd
  | false =>
    rw [show (if false = true then '-' else '+') = '+' from rfl, takeWhile_append_all _ hipd, dropWhile_append_all _ hipd,
      show List.takeWhile isDigitChar ('e' :: '+' :: charsOf xd) = [] from rfl,
      show List.dropWhile isDigitChar ('e' :: '+' :: charsOf xd) =
        'e' :: '+' :: charsOf xd from rfl]
    simp only [List.append_nil, splitSign, takeWhile_all hxdd, dropWhile_all hxdd]
    simp [List.isEmpty_iff, List.map_eq_nil_iff, charsOf_ne_nil hne, charsOf_ne_nil hxdne,
      takeWhile_all hxdd, hxdd, charsOf_length, digitsOfChars_charsOf hip,
      digitsOfChars_charsOf hxd, List.length_pos, List.getElem_mem]
    all_goals exact hxdd

/-- `parseDecBody` on `ip . fp e±xd`. -/
theorem parseDecBody_frac_exp (ip fp xd : List Nat) (xneg : Bool)
    (hip : ∀ d ∈ ip, d < 10) (hfp : ∀ d ∈ fp, d < 10) (hxd : ∀ d ∈ xd, d < 10)
    (hne : ip ≠ []) (hxdne : xd ≠ []) :
    parseDecBody (charsOf ip ++ '.' :: charsOf fp ++
        'e' :: (if xneg then '-' else '+') :: charsOf xd) =
      some (ofDigits10 (ip ++ fp),
        -(fp.length : Int) +
          (if xneg then -(ofDigits10 xd : Int) else (ofDigits10 xd : Int))) := by
  have hipd := charsOf_all_digit hip
  have hfpd := charsOf_all_digit hfp
  have hxdd := charsOf_all_digit hxd
  unfold parseDecBody
  cases xneg with
  | true =>
    rw [show (if true = true then '-' else '+') = '-' from rfl, List.append_assoc,
      List.cons_append, takeWhile_append_all _ hipd, dropWhile_append_all _ hipd,
      show List.takeWhile isDigitChar ('.' :: (charsOf fp ++ 'e' :: '-' :: charsOf xd)) = []
        from rfl,
      show List.dropWhile isDigitChar ('.' :: (charsOf fp ++ 'e' :: '-' :: charsOf xd)) =
        '.' :: (charsOf fp ++ 'e' :: '-' :: charsOf xd) from rfl]
    simp only [takeWhile_append_all _ hfpd, dropWhile_append_all _ hfpd,
      show List.takeWhile isDigitChar ('e' :: '-' :: charsOf xd) = [] from rfl,
      show List.dropWhile isDigitChar ('e' :: '-' :: charsOf xd) =
        'e' :: '-' :: charsOf xd from rfl]
    simp only [List.append_nil, splitSign, takeWhile_all hxdd, dropWhile_all hxdd]
    simp [List.isEmpty_iff, List.map_eq_nil_iff, charsOf_ne_nil hne, charsOf_ne_nil hxdne,
      takeWhile_all hxdd, hxdd, charsOf_length, digitsOfChars_append,
      digitsOfChars_charsOf hip, digitsOfChars_charsOf hfp, digitsOfChars_charsOf hxd,
      List.length_pos, List.getElem_mem]
    all_goals exact hxdd
  | false =>
    rw [show (if false = true then '-' else '+') = '+' from rfl, List.append_assoc,
      List.cons_append, takeWhile_append_all _ hipd, dropWhile_append_all _ hipd,
      show List.takeWhile isDigitChar ('.' :: (charsOf fp ++ 'e' :: '+' :: charsOf xd)) = []
        from rfl,
      show List.dropWhile isDigitChar ('.' :: (charsOf fp ++ 'e' :: '+' :: charsOf xd)) =
        '.' :: (charsOf fp ++ 'e' :: '+' :: charsOf xd) from rfl]
    simp only [takeWhile_append_all _ hfpd, dropWhile_append_all _ hfpd,
      show List.takeWhile isDigitChar ('e' :: '+' :: charsOf xd) = [] from rfl,
      show List.dropWhile isDigitChar ('e' :: '+' :: charsOf xd) =
        'e' :: '+' :: charsOf xd from rfl]
    simp only [List.append_nil, splitSign, takeWhile_all hxdd, dropWhile_all hxdd]
    simp [List.isEmpty_iff, List.map_eq_nil_iff, charsOf_ne_nil hne, charsOf_ne_nil hxdne,
      takeWhile_all hxdd, hxdd, charsOf_length, digitsOfChars_append,
      digitsOfChars_charsOf hip, digitsOfChars_charsOf hfp, digitsOfChars_charsOf hxd,
      List.length_pos, List.getElem_mem]

theorem charsOf_clean {ds : List Nat} (h : ∀ d ∈ ds, d < 10) :
    ∀ ch ∈ charsOf ds, (ch = '_' → False) ∧ isSpaceChar ch = false := by
  intro ch hch
  rcases List.mem_map.mp hch with ⟨d, hd, rfl⟩
  have : d < 10 := h d hd
  interval_cases d <;> exact ⟨by decide, by decide⟩

theorem lowerChars_append (a b : List Char) :
    lowerChars (a ++ b) = lowerChars a ++ lowerChars b :=
  List.map_append _ a b

theorem lowerChars_cons (c : Char) (l : List Char) :
    lowerChars (c :: l) =
      (if 65 ≤ c.toNat && c.toNat ≤ 90 then Char.ofNat (c.toNat + 32) else c) ::
        lowerChars l := rfl

theorem lowerChars_charsOf {ds : List Nat} (h : ∀ d ∈ ds, d < 10) :
    lowerChars (charsOf ds) = charsOf ds := by
  induction ds with
  | nil => rfl
  | cons d tl ih =>
    have hd : d < 10 := h d (List.mem_cons_self d tl)
    have htl := ih (fun x hx => h x (List.mem_cons_of_mem d hx))
    simp only [charsOf, List.map_cons] at htl ⊢
    rw [lowerChars_cons, htl]
    congr 1
    interval_cases d <;> rfl

theorem lowerChars_replicate0 (k : Nat) :
    lowerChars (List.replicate k '0') = List.replicate k '0' := by
  unfold lowerChars
  rw [List.map_replicate]
  rfl

/-- `splitSign` is the identity split when the head is a digit. -/
theorem splitSign_digit_head {c : Char} {r : List Char} (h : isDigitChar c = true) :
    splitSign (c :: r) = (false, c :: r) := by
  unfold splitSign
  split
  · rename_i heq; rw [List.cons_eq_cons.mp heq |>.1] at h; exact absurd h (by decide)
  · rename_i heq; rw [List.cons_eq_cons.mp heq |>.1] at h; exact absurd h (by decide)
  · rfl

theorem digit_head_ne_words {c : Char} {r : List Char} (h : isDigitChar c = true) :
    ¬(c :: r = "inf".data ∨ c :: r = "infinity".data) ∧
      ¬(c :: r = "nan".data ∨ c :: r = "snan".data) := by
  constructor <;> rintro (he | he) <;>
    (rw [List.cons_eq_cons.mp he |>.1] at h; exact absurd h (by decide))

/-- Driver: how `decParse` behaves on a benign sign + literal body string. -/
theorem decParse_run (str : String) (neg : Bool) (low : List Char)
    (cf : Nat) (e10 : Int)
    (hfilter : str.data.filter (fun c => c ≠ '_') = str.data)
    (hstrip : stripChars str.data = str.data)
    (hlow : lowerChars str.data = (if neg then ['-'] else []) ++ low)
    (hhead : ∃ c r, low = c :: r ∧ isDigitChar c = true)
    (hparse : parseDecBody low = some (cf, e10)) :
    decParse str = .ok (.fin neg cf e10) := by
  rcases hhead with ⟨c, r, rfl, hc⟩
  have hw := digit_head_ne_words (r := r) hc
  unfold decParse
  rw [hfilter, hstrip]
  cases neg with
  | true =>
    rw [show ((if true = true then ['-'] else []) : List Char) ++ c :: r =
      '-' :: c :: r from rfl] at hlow
    rw [hlow]
    simp only [show splitSign ('-' :: c :: r) = (true, c :: r) from rfl,
      if_neg hw.1, if_neg hw.2, hparse]
  | false =>
    rw [show ((if false = true then ['-'] else []) : List Char) ++ c :: r =
      c :: r from rfl] at hlow
    rw [hlow]
    simp only [splitSign_digit_head hc, if_neg hw.1, if_neg hw.2, hparse]

theorem decStr_data_A1 (s : Bool) (c : Nat) (e : Int)
    (h1 : e ≤ 0) (h2 : (-6 : Int) < e + (toDigits10 c).length)
    (h3 : e + ((toDigits10 c).length : Int) ≤ 0) :
    (decStr (Dec.fin s c e)).data =
      (if s then ['-'] else []) ++
        ('0' :: '.' :: (List.replicate (-(e + ((toDigits10 c).length : Int))).toNat '0' ++
          charsOf (toDigits10 c))) := by
  have hL : 0 < (toDigits10 c).length := List.length_pos.mpr (toDigits10_ne_nil c)
  simp only [decStr, show coeffChars c = charsOf (toDigits10 c) from rfl, charsOf_length,
    String.data_append]
  split_ifs
  all_goals try (exfalso; omega)
  all_goals cases s <;> simp [List.append_assoc]

theorem decStr_data_A2 (s : Bool) (c : Nat) (e : Int)
    (h1 : e ≤ 0) (h2 : (0 : Int) < e + (toDigits10 c).length)
    (h3 : e + ((toDigits10 c).length : Int) < (toDigits10 c).length) :
    (decStr (Dec.fin s c e)).data =
      (if s then ['-'] else []) ++
        ((charsOf (toDigits10 c)).take (e + ((toDigits10 c).length : Int)).toNat ++
          '.' :: (charsOf (toDigits10 c)).drop (e + ((toDigits10 c).length : Int)).toNat) := by
  have hL : 0 < (toDigits10 c).length := List.length_pos.mpr (toDigits10_ne_nil c)
  simp only [decStr, show coeffChars c = charsOf (toDigits10 c) from rfl, charsOf_length,
    String.data_append]
  split_ifs
  all_goals try (exfalso; omega)
  all_goals cases s <;> simp [List.append_assoc]

theorem decStr_data_A3 (s : Bool) (c : Nat) (e : Int) (he : e = 0) :
    (decStr (Dec.fin s c e)).data =
      (if s then ['-'] else []) ++ charsOf (toDigits10 c) := by
  subst he
  have hL : 0 < (toDigits10 c).length := List.length_pos.mpr (toDigits10_ne_nil c)
  simp only [decStr, show coeffChars c = charsOf (toDigits10 c) from rfl, charsOf_length,
    String.data_append]
  split_ifs
  all_goals try (exfalso; omega)
  all_goals cases s <;> simp [List.append_assoc]

theorem decStr_data_B1 (s : Bool) (c : Nat) (e : Int)
    (hB : ¬(e ≤ 0 ∧ (-6 : Int) < e + (toDigits10 c).length))
    (hL1 : (toDigits10 c).length = 1) :
    (decStr (Dec.fin s c e)).data =
      (if s then ['-'] else []) ++
        (charsOf (toDigits10 c) ++
          'E' :: (if e + ((toDigits10 c).length : Int) - 1 < 0 then '-' else '+') ::
            charsOf (toDigits10 (e + ((toDigits10 c).length : Int) - 1).natAbs)) := by
  have hex : e + ((toDigits10 c).length : Int) - 1 ≠ 0 := by
    rw [hL1]; intro h; exact hB (by constructor <;> omega)
  simp only [decStr, show coeffChars c = charsOf (toDigits10 c) from rfl, charsOf_length,
    String.data_append]
  split_ifs
  all_goals try (exfalso; omega)
  all_goals cases s <;>
    simp [List.append_assoc, hL1, show ∀ n, coeffChars n = charsOf (toDigits10 n) from
      fun n => rfl]

theorem decStr_data_B2 (s : Bool) (c : Nat) (e : Int)
    (hB : ¬(e ≤ 0 ∧ (-6 : Int) < e + (toDigits10 c).length))
    (hL1 : 1 < (toDigits10 c).length) :
    (decStr (Dec.fin s c e)).data =
      (if s then ['-'] else []) ++
        ((charsOf (toDigits10 c)).take 1 ++
          ('.' :: (charsOf (toDigits10 c)).drop 1 ++
            'E' :: (if e + ((toDigits10 c).length : Int) - 1 < 0 then '-' else '+') ::
              charsOf (toDigits10 (e + ((toDigits10 c).length : Int) - 1).natAbs))) := by
  have hex : e + ((toDigits10 c).length : Int) - 1 ≠ 0 := by
    intro h
    exact hB (by constructor <;> omega)
  simp only [decStr, show coeffChars c = charsOf (toDigits10 c) from rfl, charsOf_length,
    String.data_append]
  split_ifs
  all_goals try (exfalso; omega)
  all_goals cases s <;>
    simp [List.append_assoc, show ∀ n, coeffChars n = charsOf (toDigits10 n) from
      fun n => rfl]

theorem filter_strip_clean (s : Bool) {raw : List Char}
    (h : ∀ ch ∈ raw, ch ≠ '_' ∧ isSpaceChar ch = false) :
    ((if s then ['-'] else []) ++ raw).filter (fun c => c ≠ '_') =
        (if s then ['-'] else []) ++ raw ∧
      stripChars ((if s then ['-'] else []) ++ raw) =
        (if s then ['-'] else []) ++ raw := by
  have hall : ∀ ch ∈ (if s then ['-'] else []) ++ raw,
      ch ≠ '_' ∧ isSpaceChar ch = false := by
    intro ch hch
    rcases List.mem_append.mp hch with h1 | h2
    · cases s with
      | true => simp at h1; subst h1; exact ⟨by decide, by decide⟩
      | false => simp at h1
    · exact h ch h2
  exact ⟨List.filter_eq_self.mpr (fun a ha => by simpa using (hall a ha).1),
    stripChars_eq_self (fun a ha => (hall a ha).2)⟩

theorem lowerChars_sign (s : Bool) (raw : List Char) :
    lowerChars ((if s then ['-'] else []) ++ raw) =
      (if s then ['-'] else []) ++ lowerChars raw := by
  cases s with
  | true =>
    show lowerChars ('-' :: raw) = '-' :: lowerChars raw
    rw [lowerChars_cons]
    rfl
  | false => simp [lowerChars]

theorem parseDecBody_int_exp_neg (ip xd : List Nat)
    (hip : ∀ d ∈ ip, d < 10) (hxd : ∀ d ∈ xd, d < 10)
    (hne : ip ≠ []) (hxdne : xd ≠ []) :
    parseDecBody (charsOf ip ++ 'e' :: '-' :: charsOf xd) =
      some (ofDigits10 ip, -(ofDigits10 xd : Int)) := by
  simpa using parseDecBody_int_exp ip xd true hip hxd hne hxdne

theorem parseDecBody_int_exp_pos (ip xd : List Nat)
    (hip : ∀ d ∈ ip, d < 10) (hxd : ∀ d ∈ xd, d < 10)
    (hne : ip ≠ []) (hxdne : xd ≠ []) :
    parseDecBody (charsOf ip ++ 'e' :: '+' :: charsOf xd) =
      some (ofDigits10 ip, (ofDigits10 xd : Int)) := by
  simpa using parseDecBody_int_exp ip xd false hip hxd hne hxdne

theorem parseDecBody_frac_exp_neg (ip fp xd : List Nat)
    (hip : ∀ d ∈ ip, d < 10) (hfp : ∀ d ∈ fp, d < 10) (hxd : ∀ d ∈ xd, d < 10)
    (hne : ip ≠ []) (hxdne : xd ≠ []) :
    parseDecBody (charsOf ip ++ '.' :: charsOf fp ++ 'e' :: '-' :: charsOf xd) =
      some (ofDigits10 (ip ++ fp), -(fp.length : Int) + -(ofDigits10 xd : Int)) := by
  simpa using parseDecBody_frac_exp ip fp xd true hip hfp hxd hne hxdne

theorem parseDecBody_frac_exp_pos (ip fp xd : List Nat)
    (hip : ∀ d ∈ ip, d < 10) (hfp : ∀ d ∈ fp, d < 10) (hxd : ∀ d ∈ xd, d < 10)
    (hne : ip ≠ []) (hxdne : xd ≠ []) :
    parseDecBody (charsOf ip ++ '.' :: charsOf fp ++ 'e' :: '+' :: charsOf xd) =
      some (ofDigits10 (ip ++ fp), -(fp.length : Int) + (ofDigits10 xd : Int)) := by
  simpa using parseDecBody_frac_exp ip fp xd false hip hfp hxd hne hxdne

theorem decParse_decStr_A1 (s : Bool) (c : Nat) (e : Int)
    (h1 : e ≤ 0) (h2 : (-6 : Int) < e + (toDigits10 c).length)
    (h3 : e + ((toDigits10 c).length : Int) ≤ 0) :
    decParse (decStr (Dec.fin s c e)) = .ok (.fin s c e) := by
  have hlt := toDigits10_lt c
  have hdata := decStr_data_A1 s c e h1 h2 h3
  have hclean : ∀ ch ∈ '0' :: '.' ::
      (List.replicate (-(e + ((toDigits10 c).length : Int))).toNat '0' ++
        charsOf (toDigits10 c)), ch ≠ '_' ∧ isSpaceChar ch = false := by
    intro ch hch
    rcases hch with _ | ⟨_, hch⟩
    · exact ⟨by decide, by decide⟩
    rcases hch with _ | ⟨_, hch⟩
    · exact ⟨by decide, by decide⟩
    rcases List.mem_append.mp hch with hr | hc
    · rw [(List.mem_replicate.mp hr).2]; exact ⟨by decide, by decide⟩
    · exact charsOf_clean hlt ch hc
  rcases filter_strip_clean s hclean with ⟨hf, hs⟩
  apply decParse_run _ s ('0' :: '.' ::
    (List.replicate (-(e + ((toDigits10 c).length : Int))).toNat '0' ++
      charsOf (toDigits10 c))) c e
  · rw [hdata]; exact hf
  · rw [hdata]; exact hs
  · rw [hdata, lowerChars_sign]
    congr 1
    rw [lowerChars_cons, lowerChars_cons, lowerChars_append, lowerChars_replicate0,
      lowerChars_charsOf hlt]
    rfl
  · exact ⟨'0', _, rfl, by decide⟩
  · have hshape : ('0' :: '.' ::
        (List.replicate (-(e + ((toDigits10 c).length : Int))).toNat '0' ++
          charsOf (toDigits10 c))) =
        charsOf [0] ++ '.' ::
          charsOf (List.replicate (-(e + ((toDigits10 c).length : Int))).toNat 0 ++
            toDigits10 c) := by
      simp [charsOf, List.map_replicate]
    rw [hshape, parseDecBody_frac [0] _ (by simp) (by
        intro d hd
        rcases List.mem_append.mp hd with hr | hc
        · rw [(List.mem_replicate.mp hr).2]; omega
        · exact hlt d hc) (by simp)]
    have hco : ofDigits10 ([0] ++ (List.replicate
        (-(e + ((toDigits10 c).length : Int))).toNat 0 ++ toDigits10 c)) = c := by
      rw [show ([0] : List Nat) = List.replicate 1 0 from rfl, ofDigits10_zeros_prefix,
        ofDigits10_zeros_prefix, ofDigits10_toDigits10]
    simp only [Option.some.injEq, Prod.mk.injEq]
    refine ⟨hco, ?_⟩
    simp only [List.length_append, List.length_replicate]
    omega

theorem decParse_decStr_A2 (s : Bool) (c : Nat) (e : Int)
    (h1 : e ≤ 0) (h2 : (0 : Int) < e + (toDigits10 c).length)
    (h3 : e + ((toDigits10 c).length : Int) < (toDigits10 c).length) :
    decParse (decStr (Dec.fin s c e)) = .ok (.fin s c e) := by
  have hlt := toDigits10_lt c
  have hL : 0 < (toDigits10 c).length := List.length_pos.mpr (toDigits10_ne_nil c)
  have hdata := decStr_data_A2 s c e h1 h2 h3
  rw [show ((charsOf (toDigits10 c)).take (e + ((toDigits10 c).length : Int)).toNat) =
        charsOf ((toDigits10 c).take (e + ((toDigits10 c).length : Int)).toNat)
      from (List.map_take _ _ _).symm,
    show ((charsOf (toDigits10 c)).drop (e + ((toDigits10 c).length : Int)).toNat) =
        charsOf ((toDigits10 c).drop (e + ((toDigits10 c).length : Int)).toNat)
      from (List.map_drop _ _ _).symm] at hdata
  have hlt1 : ∀ d ∈ (toDigits10 c).take (e + ((toDigits10 c).length : Int)).toNat,
      d < 10 := fun d hd => hlt d (List.take_subset _ _ hd)
  have hlt2 : ∀ d ∈ (toDigits10 c).drop (e + ((toDigits10 c).length : Int)).toNat,
      d < 10 := fun d hd => hlt d (List.drop_subset _ _ hd)
  have htne : (toDigits10 c).take (e + ((toDigits10 c).length : Int)).toNat ≠ [] := by
    have hlen := List.length_take (e + ((toDigits10 c).length : Int)).toNat (toDigits10 c)
    intro hnil2
    rw [hnil2] at hlen
    simp at hlen
    omega
  have hclean : ∀ ch ∈ charsOf ((toDigits10 c).take
        (e + ((toDigits10 c).length : Int)).toNat) ++
      '.' :: charsOf ((toDigits10 c).drop (e + ((toDigits10 c).length : Int)).toNat),
      ch ≠ '_' ∧ isSpaceChar ch = false := by
    intro ch hch
    rcases List.mem_append.mp hch with h4 | h5
    · exact charsOf_clean hlt1 ch h4
    rcases h5 with _ | ⟨_, h6⟩
    · exact ⟨by decide, by decide⟩
    · exact charsOf_clean hlt2 ch h6
  rcases filter_strip_clean s hclean with ⟨hf, hs⟩
  apply decParse_run _ s
    (charsOf ((toDigits10 c).take (e + ((toDigits10 c).length : Int)).toNat) ++
      '.' :: charsOf ((toDigits10 c).drop (e + ((toDigits10 c).length : Int)).toNat)) c e
  · rw [hdata]; exact hf
  · rw [hdata]; exact hs
  · rw [hdata, lowerChars_sign]
    congr 1
    rw [lowerChars_append, lowerChars_charsOf hlt1, lowerChars_cons,
      lowerChars_charsOf hlt2]
    rfl
  · rcases List.exists_cons_of_ne_nil htne with ⟨d, tl, hdt⟩
    refine ⟨Char.ofNat (48 + d), charsOf tl ++
      '.' :: charsOf ((toDigits10 c).drop (e + ((toDigits10 c).length : Int)).toNat),
      by rw [hdt]; rfl, digitChar_isDigit (hlt1 d ?_)⟩
    rw [hdt]
    exact List.mem_cons_self d tl
  · rw [parseDecBody_frac _ _ hlt1 hlt2 htne]
    simp only [Option.some.injEq, Prod.mk.injEq]
    constructor
    · rw [List.take_append_drop, ofDigits10_toDigits10]
    · simp only [List.length_drop]
      omega

theorem decParse_decStr_A3 (s : Bool) (c : Nat) (e : Int) (he : e = 0) :
    decParse (decStr (Dec.fin s c e)) = .ok (.fin s c e) := by
  subst he
  have hlt := toDigits10_lt c
  have hnil := toDigits10_ne_nil c
  have hdata := decStr_data_A3 s c 0 rfl
  have hclean : ∀ ch ∈ charsOf (toDigits10 c), ch ≠ '_' ∧ isSpaceChar ch = false :=
    charsOf_clean hlt
  rcases filter_strip_clean s hclean with ⟨hf, hs⟩
  apply decParse_run _ s (charsOf (toDigits10 c)) c 0
  · rw [hdata]; exact hf
  · rw [hdata]; exact hs
  · rw [hdata, lowerChars_sign, lowerChars_charsOf hlt]
  · rcases List.exists_cons_of_ne_nil hnil with ⟨d, tl, hdt⟩
    refine ⟨Char.ofNat (48 + d), charsOf tl, by rw [hdt]; rfl,
      digitChar_isDigit (hlt d ?_)⟩
    rw [hdt]
    exact List.mem_cons_self d tl
  · rw [parseDecBody_int _ hlt hnil, ofDigits10_toDigits10]

theorem decParse_decStr_B1 (s : Bool) (c : Nat) (e : Int)
    (hB : ¬(e ≤ 0 ∧ (-6 : Int) < e + (toDigits10 c).length))
    (hL1 : (toDigits10 c).length = 1) :
    decParse (decStr (Dec.fin s c e)) = .ok (.fin s c e) := by
  have hlt := toDigits10_lt c
  have hnil := toDigits10_ne_nil c
  have hxlt := toDigits10_lt (e + ((toDigits10 c).length : Int) - 1).natAbs
  have hxnil := toDigits10_ne_nil (e + ((toDigits10 c).length : Int) - 1).natAbs
  have hdata := decStr_data_B1 s c e hB hL1
  have hclean : ∀ sg, sg = '-' ∨ sg = '+' → ∀ ch ∈ charsOf (toDigits10 c) ++
      'E' :: sg :: charsOf (toDigits10 (e + ((toDigits10 c).length : Int) - 1).natAbs),
      ch ≠ '_' ∧ isSpaceChar ch = false := by
    intro sg hsg ch hch
    rcases List.mem_append.mp hch with h4 | h5
    · exact charsOf_clean hlt ch h4
    rcases h5 with _ | ⟨_, h5⟩
    · exact ⟨by decide, by decide⟩
    rcases h5 with _ | ⟨_, h6⟩
    · rcases hsg with rfl | rfl
      · exact ⟨by decide, by decide⟩
      · exact ⟨by decide, by decide⟩
    · exact charsOf_clean hxlt ch h6
  rcases List.exists_cons_of_ne_nil hnil with ⟨d, tl, hdt⟩
  by_cases hxn : e + ((toDigits10 c).length : Int) - 1 < 0
  · rw [if_pos hxn] at hdata
    rcases filter_strip_clean s (hclean '-' (Or.inl rfl)) with ⟨hf, hs⟩
    apply decParse_run _ s (charsOf (toDigits10 c) ++ 'e' :: '-' ::
      charsOf (toDigits10 (e + ((toDigits10 c).length : Int) - 1).natAbs)) c e
    · rw [hdata]; exact hf
    · rw [hdata]; exact hs
    · rw [hdata, lowerChars_sign]
      congr 1
      rw [lowerChars_append, lowerChars_charsOf hlt, lowerChars_cons, lowerChars_cons,
        lowerChars_charsOf hxlt]
      rfl
    · refine ⟨Char.ofNat (48 + d), charsOf tl ++ 'e' :: '-' ::
        charsOf (toDigits10 (e + ((toDigits10 c).length : Int) - 1).natAbs),
        by rw [hdt]; rfl, digitChar_isDigit (hlt d ?_)⟩
      rw [hdt]
      exact List.mem_cons_self d tl
    · rw [parseDecBody_int_exp_neg _ _ hlt hxlt hnil hxnil]
      simp only [Option.some.injEq, Prod.mk.injEq, ofDigits10_toDigits10]
      exact ⟨by trivial, by omega⟩
  · rw [if_neg hxn] at hdata
    rcases filter_strip_clean s (hclean '+' (Or.inr rfl)) with ⟨hf, hs⟩
    apply decParse_run _ s (charsOf (toDigits10 c) ++ 'e' :: '+' ::
      charsOf (toDigits10 (e + ((toDigits10 c).length : Int) - 1).natAbs)) c e
    · rw [hdata]; exact hf
    · rw [hdata]; exact hs
    · rw [hdata, lowerChars_sign]
      congr 1
      rw [lowerChars_append, lowerChars_charsOf hlt, lowerChars_cons, lowerChars_cons,
        lowerChars_charsOf hxlt]
      rfl
    · refine ⟨Char.ofNat (48 + d), charsOf tl ++ 'e' :: '+' ::
        charsOf (toDigits10 (e + ((toDigits10 c).length : Int) - 1).natAbs),
        by rw [hdt]; rfl, digitChar_isDigit (hlt d ?_)⟩
      rw [hdt]
      exact List.mem_cons_self d tl
    · rw [parseDecBody_int_exp_pos _ _ hlt hxlt hnil hxnil]
      simp only [Option.some.injEq, Prod.mk.injEq, ofDigits10_toDigits10]
      exact ⟨by trivial, by omega⟩

theorem decParse_decStr_B2 (s : Bool) (c : Nat) (e : Int)
    (hB : ¬(e ≤ 0 ∧ (-6 : Int) < e + (toDigits10 c).length))
    (hL1 : 1 < (toDigits10 c).length) :
    decParse (decStr (Dec.fin s c e)) = .ok (.fin s c e) := by
  have hlt := toDigits10_lt c
  have hxlt := toDigits10_lt (e + ((toDigits10 c).length : Int) - 1).natAbs
  have hxnil := toDigits10_ne_nil (e + ((toDigits10 c).length : Int) - 1).natAbs
  have hdata := decStr_data_B2 s c e hB hL1
  rw [show ((charsOf (toDigits10 c)).take 1) = charsOf ((toDigits10 c).take 1)
      from (List.map_take _ _ _).symm,
    show ((charsOf (toDigits10 c)).drop 1) = charsOf ((toDigits10 c).drop 1)
      from (List.map_drop _ _ _).symm] at hdata
  have hlt1 : ∀ d ∈ (toDigits10 c).take 1, d < 10 :=
    fun d hd => hlt d (List.take_subset _ _ hd)
  have hlt2 : ∀ d ∈ (toDigits10 c).drop 1, d < 10 :=
    fun d hd => hlt d (List.drop_subset _ _ hd)
  have htne : (toDigits10 c).take 1 ≠ [] := by
    have hlen := List.length_take 1 (toDigits10 c)
    intro hnil2
    rw [hnil2] at hlen
    simp at hlen
    omega
  have hclean : ∀ sg, sg = '-' ∨ sg = '+' → ∀ ch ∈ charsOf ((toDigits10 c).take 1) ++
      ('.' :: charsOf ((toDigits10 c).drop 1) ++ 'E' :: sg ::
        charsOf (toDigits10 (e + ((toDigits10 c).length : Int) - 1).natAbs)),
      ch ≠ '_' ∧ isSpaceChar ch = false := by
    intro sg hsg ch hch
    rcases List.mem_append.mp hch with h4 | h5
    · exact charsOf_clean hlt1 ch h4
    rcases h5 with _ | ⟨_, h5⟩
    · exact ⟨by decide, by decide⟩
    rcases List.mem_append.mp h5 with h6 | h7
    · exact charsOf_clean hlt2 ch h6
    rcases h7 with _ | ⟨_, h7⟩
    · exact ⟨by decide, by decide⟩
    rcases h7 with _ | ⟨_, h8⟩
    · rcases hsg with rfl | rfl
      · exact ⟨by decide, by decide⟩
      · exact ⟨by decide, by decide⟩
    · exact charsOf_clean hxlt ch h8
  rcases List.exists_cons_of_ne_nil htne with ⟨d, tl, hdt⟩
  by_cases hxn : e + ((toDigits10 c).length : Int) - 1 < 0
  · rw [if_pos hxn] at hdata
    rcases filter_strip_clean s (hclean '-' (Or.inl rfl)) with ⟨hf, hs⟩
    apply decParse_run _ s (charsOf ((toDigits10 c).take 1) ++
      ('.' :: charsOf ((toDigits10 c).drop 1) ++ 'e' :: '-' ::
        charsOf (toDigits10 (e + ((toDigits10 c).length : Int) - 1).natAbs))) c e
    · rw [hdata]; exact hf
    · rw [hdata]; exact hs
    · rw [hdata, lowerChars_sign]
      congr 1
      rw [lowerChars_append, lowerChars_charsOf hlt1, lowerChars_append, lowerChars_cons,
        lowerChars_charsOf hlt2, lowerChars_cons, lowerChars_cons, lowerChars_charsOf hxlt]
      rfl
    · refine ⟨Char.ofNat (48 + d), charsOf tl ++
        ('.' :: charsOf ((toDigits10 c).drop 1) ++ 'e' :: '-' ::
          charsOf (toDigits10 (e + ((toDigits10 c).length : Int) - 1).natAbs)),
        by rw [hdt]; rfl, digitChar_isDigit (hlt1 d ?_)⟩
      rw [hdt]
      exact List.mem_cons_self d tl
    · rw [show charsOf ((toDigits10 c).take 1) ++
          ('.' :: charsOf ((toDigits10 c).drop 1) ++ 'e' :: '-' ::
            charsOf (toDigits10 (e + ((toDigits10 c).length : Int) - 1).natAbs)) =
          charsOf ((toDigits10 c).take 1) ++ '.' :: charsOf ((toDigits10 c).drop 1) ++
            'e' :: '-' ::
              charsOf (toDigits10 (e + ((toDigits10 c).length : Int) - 1).natAbs)
        from by simp [List.append_assoc]]
      rw [parseDecBody_frac_exp_neg _ _ _ hlt1 hlt2 hxlt htne hxnil]
      simp only [Option.some.injEq, Prod.mk.injEq, List.take_append_drop,
        ofDigits10_toDigits10]
      refine ⟨by trivial, ?_⟩
      simp only [List.length_drop]
      omega
  · rw [if_neg hxn] at hdata
    rcases filter_strip_clean s (hclean '+' (Or.inr rfl)) with ⟨hf, hs⟩
    apply decParse_run _ s (charsOf ((toDigits10 c).take 1) ++
      ('.' :: charsOf ((toDigits10 c).drop 1) ++ 'e' :: '+' ::
        charsOf (toDigits10 (e + ((toDigits10 c).length : Int) - 1).natAbs))) c e
    · rw [hdata]; exact hf
    · rw [hdata]; exact hs
    · rw [hdata, lowerChars_sign]
      congr 1
      rw [lowerChars_append, lowerChars_charsOf hlt1, lowerChars_append, lowerChars_cons,
        lowerChars_charsOf hlt2, lowerChars_cons, lowerChars_cons, lowerChars_charsOf hxlt]
      rfl
    · refine ⟨Char.ofNat (48 + d), charsOf tl ++
        ('.' :: charsOf ((toDigits10 c).drop 1) ++ 'e' :: '+' ::
          charsOf (toDigits10 (e + ((toDigits10 c).length : Int) - 1).natAbs)),
        by rw [hdt]; rfl, digitChar_isDigit (hlt1 d ?_)⟩
      rw [hdt]
      exact List.mem_cons_self d tl
    · rw [show charsOf ((toDigits10 c).take 1) ++
          ('.' :: charsOf ((toDigits10 c).drop 1) ++ 'e' :: '+' ::
            charsOf (toDigits10 (e + ((toDigits10 c).length : Int) - 1).natAbs)) =
          charsOf ((toDigits10 c).take 1) ++ '.' :: charsOf ((toDigits10 c).drop 1) ++
            'e' :: '+' ::
              charsOf (toDigits10 (e + ((toDigits10 c).length : Int) - 1).natAbs)
        from by simp [List.append_assoc]]
      rw [parseDecBody_frac_exp_pos _ _ _ hlt1 hlt2 hxlt htne hxnil]
      simp only [Option.some.injEq, Prod.mk.injEq, List.take_append_drop,
        ofDigits10_toDigits10]
      refine ⟨by trivial, ?_⟩
      simp only [List.length_drop]
      omega

/-- `Decimal(str(d))` recovers a finite decimal exactly: sign, coefficient and
exponent survive the to-scientific-string round trip. -/
theorem decParse_decStr (s : Bool) (c : Nat) (e : Int) :
    decParse (decStr (Dec.fin s c e)) = .ok (.fin s c e) := by
  have hL : 0 < (toDigits10 c).length := List.length_pos.mpr (toDigits10_ne_nil c)
  by_cases hA : e ≤ 0 ∧ (-6 : Int) < e + (toDigits10 c).length
  · by_cases h3 : e + ((toDigits10 c).length : Int) ≤ 0
    · exact decParse_decStr_A1 s c e hA.1 hA.2 h3
    · by_cases h4 : e + ((toDigits10 c).length : Int) < (toDigits10 c).length
      · exact decParse_decStr_A2 s c e hA.1 (by omega) h4
      · exact decParse_decStr_A3 s c e (by omega)
  · by_cases hL1 : (toDigits10 c).length = 1
    · exact decParse_decStr_B1 s c e hA hL1
    · exact decParse_decStr_B2 s c e hA (by omega)

/-- `Decimal(str(d))` recovers any decimal value (finite, infinite, NaN). -/
theorem decParse_decStr_all (d : Dec) : decParse (decStr d) = .ok d := by
  cases d with
  | fin s c e => exact decParse_decStr s c e
  | inf s => cases s <;> rfl
  | nan => rfl

theorem passed_mkCheck (i : String) (p : Bool) (m : String) :
    pyTruthy (jGet (mkCheck i p m) "passed") = p := rfl

theorem passed_mkCheckD (i : String) (p : Bool) (m : String) (d : J) :
    pyTruthy (jGet (mkCheckD i p m d) "passed") = p := rfl

theorem pyOr_arr (l : List J) : pyOr (.arr l) (.arr []) = .arr l := by
  cases l <;> simp [pyOr, pyTruthy]

theorem pyListEq_refl_s (rs : List String) :
    pyListEq (rs.map .s) (rs.map .s) = true := by
  induction rs with
  | nil => rfl
  | cons r tl ih =>
    simp only [pyListEq, List.map_cons, listEqWith] at ih ⊢
    rw [ih]
    simp [pyEq, pyEqFuel, jDepth]

theorem exceptBind_ok {α β : Type} {m : Except PyErr α} {g : α → Except PyErr β}
    {r : β} (hb : m >>= g = Except.ok r) :
    ∃ w, m = Except.ok w ∧ g w = Except.ok r := by
  cases m with
  | ok w => exact ⟨w, rfl, by simpa [Bind.bind, Except.bind] using hb⟩
  | error e => simp [Bind.bind, Except.bind] at hb

/-- A claim emitted by `buildClaim` replays to exactly its stored
`within_tolerance` verdict. -/
theorem buildClaim_replay (cid : String) (aF lF eF : Fact) (av lv ev : Dec) (claim : J)
    (h : buildClaim cid aF lF eF av lv ev = .ok claim) :
    isObjJ claim = true ∧
      ∃ within, replayClaim claim = .ok within ∧
        pyTruthy (jGet claim "within_tolerance") = within := by
  unfold buildClaim at h
  obtain ⟨tA, h1, h⟩ := exceptBind_ok h
  obtain ⟨tL, h2, h⟩ := exceptBind_ok h
  obtain ⟨tE, h3, h⟩ := exceptBind_ok h
  obtain ⟨dA, h4, h⟩ := exceptBind_ok h
  obtain ⟨dL, h5, h⟩ := exceptBind_ok h
  obtain ⟨dE, h6, h⟩ := exceptBind_ok h
  obtain ⟨s1, h7a, h⟩ := exceptBind_ok h
  obtain ⟨tol, h7, h⟩ := exceptBind_ok h
  obtain ⟨s2, hs, h⟩ := exceptBind_ok h
  obtain ⟨d0, hd, h⟩ := exceptBind_ok h
  obtain ⟨diffv, hpure, h⟩ := exceptBind_ok h
  simp only [pure, Except.pure, Except.ok.injEq] at hpure
  subst hpure
  obtain ⟨dps, h9, h⟩ := exceptBind_ok h
  obtain ⟨within, hw, h⟩ := exceptBind_ok h
  obtain ⟨as1, h10, h⟩ := exceptBind_ok h
  obtain ⟨ls1, h11, h⟩ := exceptBind_ok h
  obtain ⟨es1, h12, h⟩ := exceptBind_ok h
  obtain ⟨ds1, h13, h⟩ := exceptBind_ok h
  obtain ⟨ts1, h14, h⟩ := exceptBind_ok h
  simp only [pure, Except.pure, Except.ok.injEq] at h
  subst h
  refine ⟨rfl, within, ?_, rfl⟩
  unfold replayClaim
  simp [jGet, List.lookup, pyStr, decParse_decStr_all, hs, hd, hw,
    Bind.bind, Except.bind, pure, Except.pure]

theorem claims_fold_sound (P : J → Prop) (step : List J → String → Except PyErr (List J))
    (hstep : ∀ acc cid out, step acc cid = .ok out →
      (∀ c ∈ acc, P c) → ∀ c ∈ out, P c) :
    ∀ (ctxs : List String) (acc out : List J),
      List.foldlM step acc ctxs = .ok out → (∀ c ∈ acc, P c) → ∀ c ∈ out, P c := by
  intro ctxs
  induction ctxs with
  | nil =>
    intro acc out h hacc
    simp only [List.foldlM_nil, pure, Except.pure, Except.ok.injEq] at h
    subst h
    exact hacc
  | cons x tl ih =>
    intro acc out h hacc
    rw [List.foldlM_cons] at h
    obtain ⟨mid, hmid, h⟩ := exceptBind_ok h
    exact ih mid out h (hstep acc x mid hmid hacc)

/-- Every claim of `_balance_sheet_claims` is an output of `buildClaim`. -/
theorem balance_sheet_claims_sound (filing : Filing) (claims : List J)
    (h : balance_sheet_claims filing = .ok claims) :
    ∀ claim ∈ claims, ∃ cid aF lF eF av lv ev,
      buildClaim cid aF lF eF av lv ev = .ok claim := by
  unfold balance_sheet_claims at h
  obtain ⟨assets, ha, h⟩ := exceptBind_ok h
  obtain ⟨liabilities, hl, h⟩ := exceptBind_ok h
  obtain ⟨equity, he, h⟩ := exceptBind_ok h
  refine claims_fold_sound _ _ ?_ _ [] claims h (by simp)
  intro acc cid out hstep hacc c hc
  simp only [] at hstep
  cases hA : assets.lookup cid with
  | none =>
    rw [hA] at hstep
    simp only [pure, Except.pure, Except.ok.injEq] at hstep
    subst hstep
    exact hacc c hc
  | some aF =>
  rw [hA] at hstep
  cases hL : liabilities.lookup cid with
  | none =>
    rw [hL] at hstep
    simp only [pure, Except.pure, Except.ok.injEq] at hstep
    subst hstep
    exact hacc c hc
  | some lF =>
  rw [hL] at hstep
  cases hE : equity.lookup cid with
  | none =>
    rw [hE] at hstep
    simp only [pure, Except.pure, Except.ok.injEq] at hstep
    subst hstep
    exact hacc c hc
  | some eF =>
  rw [hE] at hstep
  simp only [] at hstep
  cases hAv : decimal_from_fact_value aF with
  | none =>
    rw [hAv] at hstep
    simp only [pure, Except.pure, Except.ok.injEq] at hstep
    subst hstep
    exact hacc c hc
  | some av =>
  rw [hAv] at hstep
  cases hLv : decimal_from_fact_value lF with
  | none =>
    rw [hLv] at hstep
    simp only [pure, Except.pure, Except.ok.injEq] at hstep
    subst hstep
    exact hacc c hc
  | some lv =>
  rw [hLv] at hstep
  cases hEv : decimal_from_fact_value eF with
  | none =>
    rw [hEv] at hstep
    simp only [pure, Except.pure, Except.ok.injEq] at hstep
    subst hstep
    exact hacc c hc
  | some ev =>
  rw [hEv] at hstep
  simp only [] at hstep
  obtain ⟨claim, hb, hstep⟩ := exceptBind_ok hstep
  simp only [pure, Except.pure, Except.ok.injEq] at hstep
  subst hstep
  rcases List.mem_append.mp hc with hmem | hmem
  · exact hacc c hmem
  · simp only [List.mem_singleton] at hmem
    subst hmem
    exact ⟨cid, aF, lF, eF, av, lv, ev, hb⟩

/-- A certificate issued by `issue_certificate` verifies with the same
(optional) signing secret and a non-required signature. -/
theorem verify_of_issue (profile : String) (result : ValidationResult)
    (signing_secret : Option String) (issued signed_at tool_version : String) (cert : J)
    (hdig : result.input_digest ≠ "")
    (hiss : issue_certificate profile result signing_secret none issued signed_at
      tool_version = .ok cert) :
    pyTruthy (jGet (verify_certificate cert signing_secret false) "verified") = true := by
  unfold issue_certificate at hiss
  by_cases hst : result.status ≠ "clean"
  · rw [if_pos hst] at hiss
    exact absurd hiss (by simp)
  · rw [if_neg hst] at hiss
    push_neg at hst
    cases signing_secret with
    | none =>
      simp only [] at hiss
      simp only [Except.ok.injEq] at hiss
      subst hiss
      simp [verify_certificate, unsigned_certificate, jGet, List.lookup, List.filter,
        checksAllPassed, mkCheck, pyTruthy, pyStrOr_s, sha256Hex_ne_empty, hdig, hst]
    | some secret =>
      by_cases hse : secret ≠ ""
      · simp only [] at hiss
        rw [if_pos hse] at hiss
        unfold sign_certificate at hiss
        rw [if_neg hse] at hiss
        simp only [Except.ok.injEq] at hiss
        subst hiss
        simp [verify_certificate, unsigned_certificate, jGet, List.lookup, List.filter,
          checksAllPassed, mkCheck, pyTruthy, pyStrOr_s, sha256Hex_ne_empty, hdig, hst,
          hse]
      · simp only [] at hiss
        rw [if_neg hse] at hiss
        simp only [Except.ok.injEq] at hiss
        subst hiss
        simp [verify_certificate, unsigned_certificate, jGet, List.lookup, List.filter,
          checksAllPassed, mkCheck, pyTruthy, pyStrOr_s, sha256Hex_ne_empty, hdig, hst]

/-- C4: replaying a proof bundle built from a validation run — against the
same report and the certificate issued for the same result with the matching
secret — verifies: every replay check passes and `verified` is true (the
external checker not being requested). -/
theorem c4_replay_of_build_bundle_verifies :
    ∀ (rules : List Rule) (filing : Filing) (profile generated_at : String)
      (certificate : Option J) (signing_secret : Option String)
      (lr : LeanReplayResult) (proof : J),
      (certificate = none ∨
        ∃ issued signed_at tool_version cert,
          issue_certificate profile (validate rules filing) signing_secret none issued
              signed_at tool_version = .ok cert ∧ certificate = some cert) →
      build_proof_bundle filing profile ((validate rules filing).as_report profile)
          (validate rules filing) certificate generated_at = .ok proof →
      ∃ replayed,
        replay_proof_bundle proof (some ((validate rules filing).as_report profile))
            certificate signing_secret false false lr = .ok replayed ∧
          pyTruthy (jGet replayed "verified") = true ∧
          ∀ checks, jGet replayed "checks" = .arr checks →
            ∀ chk ∈ checks, pyTruthy (jGet chk "passed") = true := by
  intro rules filing profile generated_at certificate signing_secret lr proof hcert hbuild
  have hdig : (validate rules filing).input_digest ≠ "" := by
    show filing.input_digest ≠ ""
    unfold Filing.input_digest
    exact sha256Hex_ne_empty _
  unfold build_proof_bundle at hbuild
  obtain ⟨claims, hclaims, hbuild⟩ := exceptBind_ok hbuild
  obtain ⟨summary, hsum, hbuild⟩ := exceptBind_ok hbuild
  have hobjall : ∀ c ∈ claims, isObjJ c = true := by
    intro c hc
    obtain ⟨cid, aF, lF, eF, av, lv, ev, hb⟩ :=
      balance_sheet_claims_sound filing claims hclaims c hc
    exact (buildClaim_replay cid aF lF eF av lv ev c hb).1
  have hfilterclaims : claims.filter isObjJ = claims :=
    List.filter_eq_self.mpr (fun c hc => hobjall c hc)
  have hclaimpass : ∀ claim ∈ claims,
      ∃ within, replayClaim claim = .ok within ∧
        pyTruthy (jGet claim "within_tolerance") = within := by
    intro c hc
    obtain ⟨cid, aF, lF, eF, av, lv, ev, hb⟩ :=
      balance_sheet_claims_sound filing claims hclaims c hc
    exact (buildClaim_replay cid aF lF eF av lv ev c hb).2
  simp only [ValidationResult.as_report, jGet, List.lookup, pyOr, pyTruthy,
    List.isEmpty, Option.getD, Except.ok.injEq] at hsum
  rcases hcert with rfl | ⟨issued, signed_at, tool_version, cert, hiss, rfl⟩
  · simp only [pure, Except.pure, Except.ok.injEq] at hbuild
    have hcore : ∃ core,
        replayCoreChecks proof (some ((validate rules filing).as_report profile)) none
            signing_secret false = .ok core ∧
          ∀ chk ∈ core, pyTruthy (jGet chk "passed") = true := by
      rw [← hbuild]
      unfold replayCoreChecks
      simp only [ValidationResult.as_report, jGet, jGetD, List.lookup, pyOr_arr,
        pyList, pyStrOr_s, hfilterclaims, hdig, sha256Hex_ne_empty, pyListEq_refl_s,
        Bind.bind, Except.bind, pure, Except.pure, Option.getD, ne_eq,
        not_false_eq_true, String.reduceBEq, beq_self_eq_true, ite_true, ite_false,
        Bool.true_and, List.append_nil, List.nil_append, decide_not]
      refine ⟨_, rfl, ?_⟩
      intro chk hchk
      simp only [List.mem_append, List.mem_cons, List.not_mem_nil, or_false,
        List.mem_map] at hchk
      rcases hchk with (((h | h | h) | h | h | h) | ⟨claim, hcl, heq⟩) | hfalse
      · subst h; rfl
      · subst h; rfl
      · subst h; rfl
      · subst h; rfl
      · subst h; rfl
      · subst h; rfl
      · subst heq
        obtain ⟨within, hrep, hwt⟩ := hclaimpass claim hcl
        rw [hrep]
        show (within == pyTruthy (jGet claim "within_tolerance")) = true
        rw [hwt]
        simp
      · simp at hfalse
    obtain ⟨core, hcoreEq, hcorePass⟩ := hcore
    have hpassed : checksAllPassed (core ++ []) = true := by
      rw [List.append_nil]
      unfold checksAllPassed
      exact List.all_eq_true.mpr (fun c hc => hcorePass c hc)
    refine ⟨J.obj
      [("schema_version", .s "formalfinance.proof_replay.v0"),
       ("verified", .b (checksAllPassed (core ++ []))),
       ("checks", .arr (core ++ [])),
       ("lean", .null)], ?_, ?_, ?_⟩
    · unfold replay_proof_bundle
      rw [hcoreEq]
      simp only [Bind.bind, Except.bind, pure, Except.pure]
      rfl
    · show pyTruthy (.b (checksAllPassed (core ++ []))) = true
      rw [hpassed]
      rfl
    · intro checks hchecks chk hchk
      have hc2 : (J.arr (core ++ []) : J) = .arr checks := hchecks
      have : core ++ [] = checks := by
        injection hc2
      subst this
      rw [List.append_nil] at hchk
      exact hcorePass chk hchk
  · simp only [pure, Except.pure, Except.ok.injEq] at hbuild
    have hver := verify_of_issue profile (validate rules filing) signing_secret issued
      signed_at tool_version cert hdig hiss
    have hcore : ∃ core,
        replayCoreChecks proof (some ((validate rules filing).as_report profile))
            (some cert) signing_secret false = .ok core ∧
          ∀ chk ∈ core, pyTruthy (jGet chk "passed") = true := by
      rw [← hbuild]
      unfold replayCoreChecks
      simp only [ValidationResult.as_report, jGet, jGetD, List.lookup, pyOr_arr,
        pyList, pyStrOr_s, hfilterclaims, hdig, sha256Hex_ne_empty, pyListEq_refl_s,
        hver, Bind.bind, Except.bind, pure, Except.pure, Option.getD, ne_eq,
        not_false_eq_true, String.reduceBEq, beq_self_eq_true, ite_true, ite_false,
        Bool.true_and, List.append_nil, List.nil_append, decide_not]
      refine ⟨_, rfl, ?_⟩
      intro chk hchk
      simp only [List.mem_append, List.mem_cons, List.not_mem_nil, or_false,
        List.mem_map] at hchk
      rcases hchk with (((h | h | h) | h | h | h) | ⟨claim, hcl, heq⟩) | h | h
      · subst h; rfl
      · subst h; rfl
      · subst h; rfl
      · subst h; rfl
      · subst h; rfl
      · subst h; rfl
      · subst heq
        obtain ⟨within, hrep, hwt⟩ := hclaimpass claim hcl
        rw [hrep]
        show (within == pyTruthy (jGet claim "within_tolerance")) = true
        rw [hwt]
        simp
      · subst h; rfl
      · subst h
        exact hver
    obtain ⟨core, hcoreEq, hcorePass⟩ := hcore
    have hpassed : checksAllPassed (core ++ []) = true := by
      rw [List.append_nil]
      unfold checksAllPassed
      exact List.all_eq_true.mpr (fun c hc => hcorePass c hc)
    refine ⟨J.obj
      [("schema_version", .s "formalfinance.proof_replay.v0"),
       ("verified", .b (checksAllPassed (core ++ []))),
       ("checks", .arr (core ++ [])),
       ("lean", .null)], ?_, ?_, ?_⟩
    · unfold replay_proof_bundle
      rw [hcoreEq]
      simp only [Bind.bind, Except.bind, pure, Except.pure]
      rfl
    · show pyTruthy (.b (checksAllPassed (core ++ []))) = true
      rw [hpassed]
      rfl
    · intro checks hchecks chk hchk
      have hc2 : (J.arr (core ++ []) : J) = .arr checks := hchecks
      have : core ++ [] = checks := by
        injection hc2
      subst this
      rw [List.append_nil] at hchk
      exact hcorePass chk hchk

def c4Fact (i concept : String) (v : Int) : Fact :=
  { id := i, concept := concept, context_id := "c1", value := .i v, unit := some "USD",
    decimals := .i 0 }

/-- A small balanced filing exercising one arithmetic claim. -/
def c4Filing : Filing :=
  { contexts := [("c1", { id := "c1", period_type := "instant" })],
    facts :=
      [c4Fact "f1" "us-gaap:Assets" 100,
       c4Fact "f2" "us-gaap:Liabilities" 60,
       c4Fact "f3" "us-gaap:StockholdersEquity" 40] }

/-- Witness for C4 at a concrete filing, report and proof bundle. -/
theorem c4_replay_of_build_bundle_verifies_witness :
    ∃ proof replayed,
      build_proof_bundle c4Filing "demo" ((validate [] c4Filing).as_report "demo")
          (validate [] c4Filing) none "T0" = .ok proof ∧
        replay_proof_bundle proof (some ((validate [] c4Filing).as_report "demo")) none none
            false false { status := "s", message := "m" } = .ok replayed ∧
          pyTruthy (jGet replayed "verified") = true := by
  obtain ⟨replayed, h1, h2, h3⟩ := c4_replay_of_build_bundle_verifies [] c4Filing "demo"
    "T0" none none { status := "s", message := "m" } _ (Or.inl rfl) rfl
  exact ⟨_, replayed, rfl, h1, h2⟩

/-! ### C7 — the taxonomy calculation-cycle rule

`TaxonomyCalculationNoCycleRule.run` (rules_taxonomy.py) first reads
`filing.taxonomy_package` via `_taxonomy`; the body below is the detector it
would run on the package value.  Python `set` iteration is modeled as
insertion order (deterministic for the single-successor graphs at issue). -/

def hasPrefixL : List Char → List Char → Bool
  | [], _ => true
  | _ :: _, [] => false
  | p :: ps, c :: cs => p == c && hasPrefixL ps cs

/-- Python `pat in s` on characters. -/
def containsSubL (pat : List Char) : List Char → Bool
  | [] => hasPrefixL pat []
  | c :: rest => hasPrefixL pat (c :: rest) || containsSubL pat rest

/-- Python `s.endswith(pat)`. -/
def endsWithL (pat l : List Char) : Bool := hasPrefixL pat.reverse l.reverse

/-- `_is_calculation_arc`. -/
def isCalculationArc (arcrole : String) : Bool :=
  let lowered := lowerChars arcrole.data
  containsSubL "calculation".data lowered || endsWithL "summation-item".data lowered

/-- `edges.setdefault(source, set()).add(target)` over an insertion-ordered
dict of insertion-ordered sets. -/
def edgesAdd : List (String × List String) → String → String → List (String × List String)
  | [], s, t => [(s, [t])]
  | (k, ts) :: rest, s, t =>
    if k = s then (k, if t ∈ ts then ts else ts ++ [t]) :: rest
    else (k, ts) :: edgesAdd rest s t

/-- The DFS mutable state of `TaxonomyCalculationNoCycleRule.run`. -/
structure DfsSt where
  visiting : List String := []
  visited : List String := []
  stack : List String := []
  findings : List Finding := []

/-- The inner `dfs` closure; `fuel` bounds the recursion depth (any value
at least the number of graph nodes is exact). -/
def dfsGo : Nat → List (String × List String) → String → DfsSt → DfsSt
  | 0, _, _, st => st
  | fuel + 1, edges, node, st =>
    if node ∈ st.visited ∨ !st.findings.isEmpty then st
    else
      let st1 : DfsSt :=
        { st with visiting := st.visiting ++ [node], stack := st.stack ++ [node] }
      let children := (edges.lookup node).getD []
      let st2 := children.foldl
        (fun acc child =>
          if !acc.findings.isEmpty then acc
          else if child ∈ acc.visiting then
            let cycle_start := if child ∈ acc.stack then acc.stack.indexOf child else 0
            let cycle := acc.stack.drop cycle_start ++ [child]
            { acc with findings := acc.findings ++
                [{ rule_id := "taxonomy.calculation_no_cycles"
                   severity := "error"
                   message := "Calculation relationship cycle detected."
                   details := [("cycle", .arr (cycle.map .s))] }] }
          else dfsGo fuel edges child acc)
        st1
      if !st2.findings.isEmpty then st2
      else
        { st2 with
          stack := st2.stack.dropLast
          visiting := st2.visiting.filter (fun v => v ≠ node)
          visited := st2.visited ++ [node] }

/-- The detector body of `TaxonomyCalculationNoCycleRule.run`, applied to the
taxonomy package value. -/
def calculationCycleFindings (package : J) : List Finding :=
  if !pyTruthy package then []
  else
    let rels :=
      match jGetD package "relationships" (.arr []) with
      | .arr rows => rows.filter isObjJ
      | _ => []
    let edges := rels.foldl
      (fun edges rel =>
        let arcrole := pyStrOr (jGet rel "arcrole")
        if !isCalculationArc arcrole then edges
        else
          let source : String := ⟨stripChars (pyStrOr (jGet rel "from")).data⟩
          let target : String := ⟨stripChars (pyStrOr (jGet rel "to")).data⟩
          if source = "" ∨ target = "" then edges
          else edgesAdd edges source target)
      ([] : List (String × List String))
    let fuelN := edges.foldl (fun a kv => a + 1 + kv.2.length) 1
    let final := edges.foldl
      (fun st kv => if !st.findings.isEmpty then st else dfsGo fuelN edges kv.1 st)
      ({} : DfsSt)
    final.findings

/-- `TaxonomyCalculationNoCycleRule.run`: the accessor, then the detector. -/
def taxonomyCalculationNoCycleRun (filing : Filing) : Except PyErr (List Finding) := do
  let package ← taxonomyOf filing
  return calculationCycleFindings package

def c7Rel (src tgt : String) : J :=
  .obj [("arcrole", .s "http://www.xbrl.org/2003/arcrole/summation-item"),
        ("from", .s src), ("to", .s tgt)]

/-- A calculation graph A→B→C→A. -/
def c7CyclePackage : J := .obj [("relationships", .arr
  [c7Rel "A" "B", c7Rel "B" "C", c7Rel "C" "A"])]

/-- An acyclic calculation graph A→B, A→C, B→C. -/
def c7AcyclicPackage : J := .obj [("relationships", .arr
  [c7Rel "A" "B", c7Rel "A" "C", c7Rel "B" "C"])]

/-- C7: the claim needs filings that carry a `taxonomy_package`, but
`models.Filing` defines no such field, so the rule raises `AttributeError`
on every filing and the cycle detector is unreachable; the detector body
itself, run on the package value directly, does behave as claimed on the
A→B→C→A and acyclic examples. -/
theorem c7_cycle_rule_faults_on_every_filing_detector_unreachable :
    (∀ filing : Filing,
      taxonomyCalculationNoCycleRun filing = .error (.attributeError "taxonomy_package")) ∧
      (∃ f : Finding,
        calculationCycleFindings c7CyclePackage = [f] ∧
          f.rule_id = "taxonomy.calculation_no_cycles" ∧ f.severity = "error" ∧
          f.details.lookup "cycle" = some (.arr [.s "A", .s "B", .s "C", .s "A"])) ∧
      calculationCycleFindings c7AcyclicPackage = [] := by
  refine ⟨fun filing => rfl, ⟨_, rfl, rfl, rfl, rfl⟩, rfl⟩

/-! ### C9 — what the emitted claims actually guarantee -/

theorem claims_fold_filterMap (assets liabilities equity : List (String × Fact)) :
    ∀ (ctxs : List String) (acc out : List J),
      List.foldlM
          (fun claims context_id =>
            match assets.lookup context_id, liabilities.lookup context_id,
                equity.lookup context_id with
            | some aF, some lF, some eF =>
              match decimal_from_fact_value aF, decimal_from_fact_value lF,
                  decimal_from_fact_value eF with
              | some av, some lv, some ev => do
                let claim ← buildClaim context_id aF lF eF av lv ev
                return claims ++ [claim]
              | _, _, _ => return claims
            | _, _, _ => return claims)
          acc ctxs = .ok out →
      out = acc ++ ctxs.filterMap (fun cid =>
        match assets.lookup cid, liabilities.lookup cid, equity.lookup cid with
        | some aF, some lF, some eF =>
          match decimal_from_fact_value aF, decimal_from_fact_value lF,
              decimal_from_fact_value eF with
          | some av, some lv, some ev => (buildClaim cid aF lF eF av lv ev).toOption
          | _, _, _ => none
        | _, _, _ => none) := by
  intro ctxs
  induction ctxs with
  | nil =>
    intro acc out h
    simp only [List.foldlM_nil, pure, Except.pure, Except.ok.injEq] at h
    simp [h]
  | cons x tl ih =>
    intro acc out h
    rw [List.foldlM_cons] at h
    obtain ⟨mid, hmid, h⟩ := exceptBind_ok h
    rw [List.filterMap_cons]
    beta_reduce
    cases hA : assets.lookup x with
    | none =>
      rw [hA] at hmid
      simp only [pure, Except.pure, Except.ok.injEq] at hmid
      subst hmid
      exact ih acc out h
    | some aF =>
    rw [hA] at hmid
    cases hL : liabilities.lookup x with
    | none =>
      rw [hL] at hmid
      simp only [pure, Except.pure, Except.ok.injEq] at hmid
      subst hmid
      exact ih acc out h
    | some lF =>
    rw [hL] at hmid
    cases hE : equity.lookup x with
    | none =>
      rw [hE] at hmid
      simp only [pure, Except.pure, Except.ok.injEq] at hmid
      subst hmid
      exact ih acc out h
    | some eF =>
    rw [hE] at hmid
    simp only [] at hmid
    cases hAv : decimal_from_fact_value aF with
    | none =>
      rw [hAv] at hmid
      simp only [pure, Except.pure, Except.ok.injEq] at hmid
      subst hmid
      simp only [hAv]
      exact ih acc out h
    | some av =>
    rw [hAv] at hmid
    cases hLv : decimal_from_fact_value lF with
    | none =>
      rw [hLv] at hmid
      simp only [pure, Except.pure, Except.ok.injEq] at hmid
      subst hmid
      simp only [hAv, hLv]
      exact ih acc out h
    | some lv =>
    rw [hLv] at hmid
    cases hEv : decimal_from_fact_value eF with
    | none =>
      rw [hEv] at hmid
      simp only [pure, Except.pure, Except.ok.injEq] at hmid
      subst hmid
      simp only [hAv, hLv, hEv]
      exact ih acc out h
    | some ev =>
    rw [hEv] at hmid
    obtain ⟨claim, hb, hmid⟩ := exceptBind_ok hmid
    simp only [pure, Except.pure, Except.ok.injEq] at hmid
    subst hmid
    simp only [hAv, hLv, hEv, hb]
    have := ih (acc ++ [claim]) out h
    simp only [this, List.append_assoc, List.singleton_append, List.cons_append,
      List.nil_append]
    rfl

/-- C9 amended: `_balance_sheet_claims` emits exactly one claim per common
context whose best Assets/Liabilities/Equity facts all convert to `Decimal`
(and whose claim construction succeeds), in context order; and each claim's
`within_tolerance` flag is exactly the proof layer's own exact-`Decimal`
evaluation of the claim's stored values — the flag replays to itself — rather
than the float rule's verdict (which can disagree, see the counterexample). -/
theorem c9_claims_exact_for_precondition_and_decimal_semantics :
    ∀ (filing : Filing) (claims : List J),
      balance_sheet_claims filing = .ok claims →
      (∃ assets liabilities equity,
        best_fact_by_context filing.facts assets_concepts = .ok assets ∧
          best_fact_by_context filing.facts liabilities_concepts = .ok liabilities ∧
          best_fact_by_context filing.facts equity_concepts = .ok equity ∧
          claims = (commonContexts assets liabilities equity).filterMap (fun cid =>
            match assets.lookup cid, liabilities.lookup cid, equity.lookup cid with
            | some aF, some lF, some eF =>
              match decimal_from_fact_value aF, decimal_from_fact_value lF,
                  decimal_from_fact_value eF with
              | some av, some lv, some ev => (buildClaim cid aF lF eF av lv ev).toOption
              | _, _, _ => none
            | _, _, _ => none)) ∧
        ∀ claim ∈ claims, ∃ within,
          pyTruthy (jGet claim "within_tolerance") = within ∧
            replayClaim claim = .ok within := by
  intro filing claims h
  have hsound := balance_sheet_claims_sound filing claims h
  unfold balance_sheet_claims at h
  obtain ⟨assets, ha, h⟩ := exceptBind_ok h
  obtain ⟨liabilities, hl, h⟩ := exceptBind_ok h
  obtain ⟨equity, he, h⟩ := exceptBind_ok h
  refine ⟨⟨assets, liabilities, equity, ha, hl, he, ?_⟩, ?_⟩
  · have := claims_fold_filterMap assets liabilities equity
      (commonContexts assets liabilities equity) [] claims h
    simpa using this
  · intro claim hcl
    obtain ⟨cid, aF, lF, eF, av, lv, ev, hb⟩ := hsound claim hcl
    obtain ⟨hobj, within, hrep, hwt⟩ := buildClaim_replay cid aF lF eF av lv ev claim hb
    exact ⟨within, hwt, hrep⟩

/-- Witness for the amended C9 theorem at the counterexample filing. -/
theorem c9_claims_exact_for_precondition_and_decimal_semantics_witness :
    ∃ claims, balance_sheet_claims c9Filing = .ok claims ∧
      ((∃ assets liabilities equity,
        best_fact_by_context c9Filing.facts assets_concepts = .ok assets ∧
          best_fact_by_context c9Filing.facts liabilities_concepts = .ok liabilities ∧
          best_fact_by_context c9Filing.facts equity_concepts = .ok equity ∧
          claims = (commonContexts assets liabilities equity).filterMap (fun cid =>
            match assets.lookup cid, liabilities.lookup cid, equity.lookup cid with
            | some aF, some lF, some eF =>
              match decimal_from_fact_value aF, decimal_from_fact_value lF,
                  decimal_from_fact_value eF with
              | some av, some lv, some ev => (buildClaim cid aF lF eF av lv ev).toOption
              | _, _, _ => none
            | _, _, _ => none)) ∧
        ∀ claim ∈ claims, ∃ within,
          pyTruthy (jGet claim "within_tolerance") = within ∧
            replayClaim claim = .ok within) :=
  ⟨_, rfl, c9_claims_exact_for_precondition_and_decimal_semantics c9Filing _ rfl⟩

/-! ### C8 — properties of the canonical ordering -/

theorem strLtChars_irrefl (a : List Char) : strLtChars a a = false := by
  induction a with
  | nil => rfl
  | cons c t ih => simp [strLtChars, ih]

theorem strLtChars_trans :
    ∀ a b c, strLtChars a b = true → strLtChars b c = true → strLtChars a c = true := by
  intro a
  induction a with
  | nil =>
    intro b c hab hbc
    cases b <;> cases c <;> simp_all [strLtChars]
  | cons x xs ih =>
    intro b c hab hbc
    cases b with
    | nil => simp [strLtChars] at hab
    | cons y ys =>
    cases c with
    | nil => simp [strLtChars] at hbc
    | cons z zs =>
    simp only [strLtChars] at hab hbc ⊢
    split_ifs at hab hbc ⊢ <;> first | rfl | omega | exact ih ys zs hab hbc |
      simp_all

theorem charsEq_of_toNat (a b : Char) (h : a.toNat = b.toNat) : a = b := by
  have := congrArg Char.ofNat h
  rwa [Char.ofNat_toNat, Char.ofNat_toNat] at this

theorem strLtChars_eq_of_not :
    ∀ a b, strLtChars a b = false → strLtChars b a = false → a = b := by
  intro a
  induction a with
  | nil =>
    intro b hab _
    cases b with
    | nil => rfl
    | cons y ys => simp [strLtChars] at hab
  | cons x xs ih =>
    intro b hab hba
    cases b with
    | nil => simp [strLtChars] at hba
    | cons y ys =>
    simp only [strLtChars] at hab hba
    split_ifs at hab hba <;> try simp_all
    all_goals
      first
      | exact ⟨rfl, rfl⟩
      | exact ⟨charsEq_of_toNat _ _ (by omega), ih _ hab hba⟩

theorem pyStrLe_antisymm (a b : String) (h1 : pyStrLe a b = true)
    (h2 : pyStrLe b a = true) : a = b := by
  simp only [pyStrLe, Bool.not_eq_true', Bool.not_eq_true] at h1 h2
  have hd := strLtChars_eq_of_not a.data b.data h2 h1
  cases a
  cases b
  exact congrArg String.mk hd

theorem pyStrLe_total (a b : String) : pyStrLe a b = true ∨ pyStrLe b a = true := by
  by_contra hcon
  push_neg at hcon
  obtain ⟨h1, h2⟩ := hcon
  simp only [pyStrLe, ne_eq, Bool.not_eq_true', Bool.not_eq_false,
    Bool.not_eq_true] at h1 h2
  have := strLtChars_trans _ _ _ h1 h2
  rw [strLtChars_irrefl] at this
  exact Bool.false_ne_true this

theorem pyStrLe_trans (a b c : String) (h1 : pyStrLe a b = true)
    (h2 : pyStrLe b c = true) : pyStrLe a c = true := by
  simp only [pyStrLe, Bool.not_eq_true'] at h1 h2 ⊢
  by_contra hcon
  simp only [Bool.not_eq_false] at hcon
  by_cases hbc : strLtChars b.data c.data = true
  · have hba := strLtChars_trans _ _ _ hbc hcon
    rw [h1] at hba
    exact Bool.false_ne_true hba
  · have heq := strLtChars_eq_of_not b.data c.data (by simpa using hbc) h2
    rw [← heq] at hcon
    rw [h1] at hcon
    exact Bool.false_ne_true hcon

theorem keyRelTotal {α : Type} (key : α → String) :
    IsTotal α (fun a b => pyStrLe (key a) (key b) = true) :=
  ⟨fun a b => pyStrLe_total (key a) (key b)⟩

theorem keyRelTrans {α : Type} (key : α → String) :
    IsTrans α (fun a b => pyStrLe (key a) (key b) = true) :=
  ⟨fun _ _ _ h1 h2 => pyStrLe_trans _ _ _ h1 h2⟩

/-- Two sorted permutations of the same elements with pairwise-distinct keys
are equal. -/
theorem sorted_perm_eq_of_nodup_keys {α : Type} (key : α → String) :
    ∀ (l1 l2 : List α), List.Perm l1 l2 →
      List.Sorted (fun a b => pyStrLe (key a) (key b) = true) l1 →
      List.Sorted (fun a b => pyStrLe (key a) (key b) = true) l2 →
      (l1.map key).Nodup → l1 = l2 := by
  intro l1
  induction l1 with
  | nil =>
    intro l2 hp _ _ _
    exact hp.nil_eq
  | cons a t1 ih =>
    intro l2 hp hs1 hs2 hnd
    cases l2 with
    | nil => exact absurd hp.symm.nil_eq (by simp)
    | cons b t2 =>
      have hab : a = b := by
        by_contra hne
        have haIn : a ∈ b :: t2 := hp.mem_iff.mp (List.mem_cons_self a t1)
        have hbIn : b ∈ a :: t1 := hp.symm.mem_iff.mp (List.mem_cons_self b t2)
        rcases List.mem_cons.mp haIn with h1 | h1
        · exact hne h1
        rcases List.mem_cons.mp hbIn with h2 | h2
        · exact hne h2.symm
        have hr1 : pyStrLe (key a) (key b) = true := List.rel_of_sorted_cons hs1 b h2
        have hr2 : pyStrLe (key b) (key a) = true := List.rel_of_sorted_cons hs2 a h1
        have hkey : key a = key b := pyStrLe_antisymm _ _ hr1 hr2
        have hmem : key b ∈ t1.map key := List.mem_map.mpr ⟨b, h2, rfl⟩
        rw [← hkey] at hmem
        simp only [List.map_cons, List.nodup_cons] at hnd
        exact hnd.1 hmem
      subst hab
      have ht : t1 = t2 := by
        refine ih t2 hp.cons_inv hs1.of_cons hs2.of_cons ?_
        simp only [List.map_cons, List.nodup_cons] at hnd
        exact hnd.2
      rw [ht]

/-- `sortByKey` of a permutation with pairwise-distinct keys. -/
theorem sortByKey_eq_of_perm {α : Type} (key : α → String) (l1 l2 : List α)
    (hperm : List.Perm l1 l2) (hnodup : (l1.map key).Nodup) :
    sortByKey key l1 = sortByKey key l2 := by
  haveI := keyRelTotal key
  haveI := keyRelTrans key
  refine sorted_perm_eq_of_nodup_keys key _ _ ?_ ?_ ?_ ?_
  · exact ((List.perm_insertionSort _ l1).trans hperm).trans
      (List.perm_insertionSort _ l2).symm
  · exact List.sorted_insertionSort _ l1
  · exact List.sorted_insertionSort _ l2
  · exact (((List.perm_insertionSort _ l1).map key).nodup_iff).mpr hnodup

theorem sortByKey_idem {α : Type} (key : α → String) (l : List α) :
    sortByKey key (sortByKey key l) = sortByKey key l := by
  haveI := keyRelTotal key
  haveI := keyRelTrans key
  exact List.Sorted.insertionSort_eq (List.sorted_insertionSort _ l)

theorem orderedInsert_map_key {α β : Type} (f : α → β) (keyb : β → String)
    (a : α) : ∀ l : List α,
    (List.orderedInsert (fun x y => pyStrLe (keyb (f x)) (keyb (f y)) = true) a l).map f =
      List.orderedInsert (fun x y => pyStrLe (keyb x) (keyb y) = true) (f a) (l.map f) := by
  intro l
  induction l with
  | nil => rfl
  | cons b t ih =>
    simp only [List.orderedInsert, List.map_cons]
    by_cases h : pyStrLe (keyb (f a)) (keyb (f b)) = true
    · rw [if_pos h, if_pos h]
      simp
    · rw [if_neg h, if_neg h]
      simp [ih]

theorem insertionSort_map_key {α β : Type} (f : α → β) (keyb : β → String) :
    ∀ l : List α,
    (List.insertionSort (fun x y => pyStrLe (keyb (f x)) (keyb (f y)) = true) l).map f =
      List.insertionSort (fun x y => pyStrLe (keyb x) (keyb y) = true) (l.map f) := by
  intro l
  induction l with
  | nil => rfl
  | cons b t ih =>
    simp only [List.insertionSort, List.map_cons]
    rw [← ih, orderedInsert_map_key]

theorem sortByKey_map_snd (l : List (String × Context)) :
    (sortByKey (fun kv => kv.2.id) l).map (fun kv => kv.2) =
      sortByKey (fun c => c.id) (l.map (fun kv => kv.2)) := by
  unfold sortByKey
  exact insertionSort_map_key _ _ l

theorem forall2_map_eq {α β : Type} {R : α → α → Prop} {h : α → β}
    (hcong : ∀ a b, R a b → h a = h b) :
    ∀ {l1 l2 : List α}, List.Forall₂ R l1 l2 → l1.map h = l2.map h := by
  intro l1 l2 hf
  induction hf with
  | nil => rfl
  | cons hr _ ih => simp only [List.map_cons, hcong _ _ hr, ih]

theorem forall2_map_rel {α β : Type} {R : α → α → Prop} {S : β → β → Prop}
    (h : α → β) (hc : ∀ a b, R a b → S (h a) (h b)) :
    ∀ {l1 l2 : List α}, List.Forall₂ R l1 l2 →
      List.Forall₂ S (l1.map h) (l2.map h) := by
  intro l1 l2 hf
  induction hf with
  | nil => exact List.Forall₂.nil
  | cons hr _ ih => exact List.Forall₂.cons (hc _ _ hr) ih

/-- `orderedInsert` by a key sends pointwise key-preserving related lists to
related lists. -/
theorem orderedInsert_forall2 {α : Type} (key : α → String) {R : α → α → Prop}
    (hkey : ∀ a b, R a b → key a = key b) {a b : α} (hab : R a b) :
    ∀ {l1 l2 : List α}, List.Forall₂ R l1 l2 →
      List.Forall₂ R
        (List.orderedInsert (fun u v => pyStrLe (key u) (key v) = true) a l1)
        (List.orderedInsert (fun u v => pyStrLe (key u) (key v) = true) b l2) := by
  intro l1 l2 hf
  induction hf with
  | nil => exact List.Forall₂.cons hab List.Forall₂.nil
  | cons hr htail ih =>
    rename_i c d t1 t2
    simp only [List.orderedInsert, hkey _ _ hab, hkey _ _ hr]
    by_cases hcond : pyStrLe (key b) (key d) = true
    · simp only [if_pos hcond]
      exact List.Forall₂.cons hab (List.Forall₂.cons hr htail)
    · simp only [if_neg hcond]
      exact List.Forall₂.cons hr ih

theorem insertionSort_forall2 {α : Type} (key : α → String) {R : α → α → Prop}
    (hkey : ∀ a b, R a b → key a = key b) :
    ∀ {l1 l2 : List α}, List.Forall₂ R l1 l2 →
      List.Forall₂ R
        (List.insertionSort (fun u v => pyStrLe (key u) (key v) = true) l1)
        (List.insertionSort (fun u v => pyStrLe (key u) (key v) = true) l2) := by
  intro l1 l2 hf
  induction hf with
  | nil => exact List.Forall₂.nil
  | cons hr _ ih =>
    simp only [List.insertionSort]
    exact orderedInsert_forall2 key hkey hr ih

theorem sortByKey_forall2 {α : Type} (key : α → String) {R : α → α → Prop}
    (hkey : ∀ a b, R a b → key a = key b) {l1 l2 : List α}
    (hf : List.Forall₂ R l1 l2) :
    List.Forall₂ R (sortByKey key l1) (sortByKey key l2) := by
  unfold sortByKey
  exact insertionSort_forall2 key hkey hf

/-- Key-sorting a string-keyed pair list is permutation-invariant when the
keys are pairwise distinct. -/
theorem insertionSortPairs_eq_of_perm {γ : Type} {l1 l2 : List (String × γ)}
    (hp : List.Perm l1 l2) (hnd : (l2.map Prod.fst).Nodup) :
    l1.insertionSort (fun a b => pyStrLe a.1 b.1 = true) =
      l2.insertionSort (fun a b => pyStrLe a.1 b.1 = true) := by
  have hmain := sortByKey_eq_of_perm Prod.fst l1 l2 hp
    (((hp.map Prod.fst).nodup_iff).mpr hnd)
  unfold sortByKey at hmain
  exact hmain

theorem sortStrPairs_eq_of_perm {l1 l2 : List (String × String)}
    (hp : List.Perm l1 l2) (hnd : (l2.map Prod.fst).Nodup) :
    sortStrPairs l1 = sortStrPairs l2 := by
  unfold sortStrPairs
  exact insertionSortPairs_eq_of_perm hp hnd

/-- A fact that differs from another only by a reordering of its
`dimensions`/`source` map entries (maps: keys pairwise distinct), or not at
all. -/
def factReorderEquiv (y x : Fact) : Prop :=
  y.id = x.id ∧ y.concept = x.concept ∧ y.context_id = x.context_id ∧
  y.value = x.value ∧ y.unit = x.unit ∧ y.decimals = x.decimals ∧
  (y.dimensions = x.dimensions ∨
    (List.Perm y.dimensions x.dimensions ∧ (x.dimensions.map Prod.fst).Nodup)) ∧
  (y.source = x.source ∨
    (List.Perm y.source x.source ∧ (x.source.map Prod.fst).Nodup))

/-- A context that differs from another only by a reordering of its
`dimensions` map entries, or not at all. -/
def contextReorderEquiv (y x : Context) : Prop :=
  y.id = x.id ∧ y.period_type = x.period_type ∧ y.instant = x.instant ∧
  y.start_date = x.start_date ∧ y.end_date = x.end_date ∧
  (y.dimensions = x.dimensions ∨
    (List.Perm y.dimensions x.dimensions ∧ (x.dimensions.map Prod.fst).Nodup))

/-- Map-reordered facts have the same canonical JSON object. -/
theorem factReorderEquiv_canonical (y x : Fact) (hr : factReorderEquiv y x) :
    J.obj
      [("id", .s y.id),
       ("concept", .s y.concept),
       ("context_id", .s y.context_id),
       ("unit", optStrJ y.unit),
       ("decimals", y.decimals),
       ("value", y.value),
       ("dimensions", strPairsJ (sortStrPairs y.dimensions)),
       ("source", .obj (y.source.insertionSort (fun a b => pyStrLe a.1 b.1 = true)))] =
    J.obj
      [("id", .s x.id),
       ("concept", .s x.concept),
       ("context_id", .s x.context_id),
       ("unit", optStrJ x.unit),
       ("decimals", x.decimals),
       ("value", x.value),
       ("dimensions", strPairsJ (sortStrPairs x.dimensions)),
       ("source", .obj (x.source.insertionSort (fun a b => pyStrLe a.1 b.1 = true)))] := by
  obtain ⟨h1, h2, h3, h4, h5, h6, h7, h8⟩ := hr
  have hdim : sortStrPairs y.dimensions = sortStrPairs x.dimensions := by
    rcases h7 with h | ⟨hp7, hn7⟩
    · rw [h]
    · exact sortStrPairs_eq_of_perm hp7 hn7
  have hsrc : y.source.insertionSort (fun a b => pyStrLe a.1 b.1 = true) =
      x.source.insertionSort (fun a b => pyStrLe a.1 b.1 = true) := by
    rcases h8 with h | ⟨hp8, hn8⟩
    · rw [h]
    · exact insertionSortPairs_eq_of_perm hp8 hn8
  rw [h1, h2, h3, h4, h5, h6, hdim, hsrc]

/-- Map-reordered contexts have the same canonical JSON entry. -/
theorem contextReorderEquiv_canonical (y x : Context) (hr : contextReorderEquiv y x) :
    (y.id,
      J.obj
        [("period_type", J.s y.period_type),
         ("instant", optStrJ y.instant),
         ("start_date", optStrJ y.start_date),
         ("end_date", optStrJ y.end_date),
         ("dimensions", strPairsJ (sortStrPairs y.dimensions))]) =
    (x.id,
      J.obj
        [("period_type", J.s x.period_type),
         ("instant", optStrJ x.instant),
         ("start_date", optStrJ x.start_date),
         ("end_date", optStrJ x.end_date),
         ("dimensions", strPairsJ (sortStrPairs x.dimensions))]) := by
  obtain ⟨h1, h2, h3, h4, h5, h6⟩ := hr
  have hdim : sortStrPairs y.dimensions = sortStrPairs x.dimensions := by
    rcases h6 with h | ⟨hp6, hn6⟩
    · rw [h]
    · exact sortStrPairs_eq_of_perm hp6 hn6
  rw [h1, h2, h3, h4, h5, hdim]

/-- C8 amended: the input digest is stable under a permutation of the facts
list and a reordering of the contexts map entries, combined with any
reordering of the per-element `dimensions`/`source` map entries (maps: keys
pairwise distinct, as for Python dicts), when the canonical sort keys (fact
ids, context ids) are pairwise distinct — with duplicate ids the stable
sort preserves input order and digests can differ (see the counterexample)
— and re-canonicalizing the canonically-ordered filing changes nothing. -/
theorem c8_digest_reorder_stable_and_canonical_idempotent :
    (∀ f g : Filing,
      g.accession = f.accession → g.cik = f.cik → g.entity = f.entity →
      g.period_end = f.period_end → g.taxonomy = f.taxonomy →
      (∃ gf, List.Perm gf f.facts ∧ List.Forall₂ factReorderEquiv g.facts gf) →
      (∃ gc, List.Perm gc f.contexts ∧
        List.Forall₂ (fun ykv xkv => contextReorderEquiv ykv.2 xkv.2) g.contexts gc) →
      (f.facts.map (fun x => x.id)).Nodup →
      (f.contexts.map (fun kv => kv.2.id)).Nodup →
      g.input_digest = f.input_digest) ∧
    ∀ f : Filing,
      Filing.canonical_object
        { f with
          facts := sortByKey (fun x => x.id) f.facts
          contexts := sortByKey (fun kv => kv.2.id) f.contexts } =
        Filing.canonical_object f := by
  constructor
  · intro f g ha hc he hp ht hfacts hctx hndF hndC
    obtain ⟨gf, hgfPerm, hgfF2⟩ := hfacts
    obtain ⟨gc, hgcPerm, hgcF2⟩ := hctx
    have hcan : g.canonical_object = f.canonical_object := by
      unfold Filing.canonical_object
      rw [ha, hc, he, hp, ht]
      have hfs : List.Forall₂ factReorderEquiv
          (sortByKey (fun x => x.id) g.facts) (sortByKey (fun x => x.id) gf) :=
        sortByKey_forall2 (fun x => x.id) (fun _ _ hr => hr.1) hgfF2
      have hf1 : (sortByKey (fun x => x.id) g.facts).map
            (fun x =>
              J.obj
                [("id", .s x.id),
                 ("concept", .s x.concept),
                 ("context_id", .s x.context_id),
                 ("unit", optStrJ x.unit),
                 ("decimals", x.decimals),
                 ("value", x.value),
                 ("dimensions", strPairsJ (sortStrPairs x.dimensions)),
                 ("source", .obj (x.source.insertionSort (fun a b => pyStrLe a.1 b.1 = true)))]) =
          (sortByKey (fun x => x.id) gf).map
            (fun x =>
              J.obj
                [("id", .s x.id),
                 ("concept", .s x.concept),
                 ("context_id", .s x.context_id),
                 ("unit", optStrJ x.unit),
                 ("decimals", x.decimals),
                 ("value", x.value),
                 ("dimensions", strPairsJ (sortStrPairs x.dimensions)),
                 ("source", .obj (x.source.insertionSort (fun a b => pyStrLe a.1 b.1 = true)))]) :=
        forall2_map_eq (fun a b hr => factReorderEquiv_canonical a b hr) hfs
      have hf2 : sortByKey (fun x => x.id) gf = sortByKey (fun x => x.id) f.facts :=
        sortByKey_eq_of_perm _ _ _ hgfPerm
          ((hgfPerm.map (fun x => x.id)).nodup_iff.mpr hndF)
      have hlift : List.Forall₂ contextReorderEquiv
          (g.contexts.map (fun kv => kv.2)) (gc.map (fun kv => kv.2)) :=
        forall2_map_rel (fun kv : String × Context => kv.2)
          (fun a b (hr : contextReorderEquiv a.2 b.2) => hr) hgcF2
      have hcs : List.Forall₂ contextReorderEquiv
          (sortByKey (fun c => c.id) (g.contexts.map (fun kv => kv.2)))
          (sortByKey (fun c => c.id) (gc.map (fun kv => kv.2))) :=
        sortByKey_forall2 (fun c => c.id) (fun _ _ hr => hr.1) hlift
      have hc1 : (sortByKey (fun c => c.id) (g.contexts.map (fun kv => kv.2))).map
            (fun c =>
              (c.id,
                J.obj
                  [("period_type", .s c.period_type),
                   ("instant", optStrJ c.instant),
                   ("start_date", optStrJ c.start_date),
                   ("end_date", optStrJ c.end_date),
                   ("dimensions", strPairsJ (sortStrPairs c.dimensions))])) =
          (sortByKey (fun c => c.id) (gc.map (fun kv => kv.2))).map
            (fun c =>
              (c.id,
                J.obj
                  [("period_type", .s c.period_type),
                   ("instant", optStrJ c.instant),
                   ("start_date", optStrJ c.start_date),
                   ("end_date", optStrJ c.end_date),
                   ("dimensions", strPairsJ (sortStrPairs c.dimensions))])) :=
        forall2_map_eq (fun a b hr => contextReorderEquiv_canonical a b hr) hcs
      have hc2 : sortByKey (fun c => c.id) (gc.map (fun kv => kv.2)) =
          sortByKey (fun c => c.id) (f.contexts.map (fun kv => kv.2)) := by
        refine sortByKey_eq_of_perm _ _ _ (hgcPerm.map _) ?_
        refine (((hgcPerm.map (fun kv => kv.2)).map (fun c => c.id)).nodup_iff).mpr ?_
        simpa [List.map_map] using hndC
      rw [hf1, hf2, hc1, hc2]
    unfold Filing.input_digest
    rw [hcan]
  · intro f
    unfold Filing.canonical_object
    simp only []
    rw [sortByKey_map_snd, sortByKey_idem, sortByKey_idem]

def c8Fact (i concept : String) (v : Int) : Fact :=
  { id := i, concept := concept, context_id := "c1", value := .i v }

/-- Two facts sharing the id `"x"`, in the two orders. -/
def c8FilingDupA : Filing :=
  { facts := [c8Fact "x" "us-gaap:Assets" 1, c8Fact "x" "us-gaap:Liabilities" 2] }

def c8FilingDupB : Filing :=
  { facts := [c8Fact "x" "us-gaap:Liabilities" 2, c8Fact "x" "us-gaap:Assets" 1] }

/-- C8 counterexample: the claim promises digest stability under every
permutation of the facts list, but with duplicate fact ids the canonical
stable sort preserves the input order, so swapping two facts that share an
id changes the canonical JSON and the digest. -/
theorem c8_duplicate_id_reorder_changes_digest :
    c8FilingDupB.accession = c8FilingDupA.accession ∧
      c8FilingDupB.contexts = c8FilingDupA.contexts ∧
      List.Perm c8FilingDupB.facts c8FilingDupA.facts ∧
      c8FilingDupB.input_digest ≠ c8FilingDupA.input_digest := by
  refine ⟨rfl, rfl, List.Perm.swap _ _ _, ?_⟩
  decide

def c8FactA : Fact :=
  { id := "a"
    concept := "us-gaap:Assets"
    context_id := "c1"
    value := .i 1
    dimensions := [("dim1", "m1"), ("dim2", "m2")]
    source := [("line", .i 3), ("page", .i 7)] }

/-- `c8FactA` with its dimension and source map entries reordered. -/
def c8FactA2 : Fact :=
  { id := "a"
    concept := "us-gaap:Assets"
    context_id := "c1"
    value := .i 1
    dimensions := [("dim2", "m2"), ("dim1", "m1")]
    source := [("page", .i 7), ("line", .i 3)] }

def c8FactB : Fact :=
  { id := "b", concept := "us-gaap:Liabilities", context_id := "c1", value := .i 2 }

def c8FilingC : Filing :=
  { facts := [c8FactA, c8FactB] }

/-- `c8FilingC` with the facts swapped and the first fact's maps reordered. -/
def c8FilingD : Filing :=
  { facts := [c8FactB, c8FactA2] }

/-- Witness for the amended C8 theorem: distinct fact ids, facts swapped and
one fact's dimension/source maps reordered, equal digests. -/
theorem c8_digest_reorder_stable_witness :
    (c8FilingC.facts.map (fun x => x.id)).Nodup ∧
      List.Perm [c8FactB, c8FactA] c8FilingC.facts ∧
      List.Forall₂ factReorderEquiv c8FilingD.facts [c8FactB, c8FactA] ∧
      c8FilingD.input_digest = c8FilingC.input_digest := by
  have hF2 : List.Forall₂ factReorderEquiv c8FilingD.facts [c8FactB, c8FactA] :=
    List.Forall₂.cons ⟨rfl, rfl, rfl, rfl, rfl, rfl, Or.inl rfl, Or.inl rfl⟩
      (List.Forall₂.cons
        ⟨rfl, rfl, rfl, rfl, rfl, rfl,
          Or.inr ⟨List.Perm.swap _ _ _, by decide⟩,
          Or.inr ⟨List.Perm.swap _ _ _, by decide⟩⟩
        List.Forall₂.nil)
  refine ⟨by decide, List.Perm.swap _ _ _, hF2, ?_⟩
  exact c8_digest_reorder_stable_and_canonical_idempotent.1 c8FilingC c8FilingD
    rfl rfl rfl rfl rfl
    ⟨[c8FactB, c8FactA], List.Perm.swap _ _ _, hF2⟩
    ⟨[], List.Perm.refl _, List.Forall₂.nil⟩
    (by decide) (by decide)

end FF
